import Mathlib

/-!
redis-proxy: the RESP codec, the command codec, sharding, the backend
registry, the dispatcher and the startup.

A shallow embedding of `util.go`, `protocol.go`, `command.go`, `conn.go`
(`ReadResponse`, `Connect`), `client.go` (the first-line read of `IOLoop`)
and `proxy.go` (`acquireSvcConn`, `ConnectRedis`, `WriteCommand`, one round
of `Serve`, and `Run` as a step function driven by a schedule).

Conventions of the embedding.

* A byte is a `Nat` (a value below 256); a `[]byte` and a Go `string` are
  `List Nat`.  A slice that the code tests against `nil` (`Resp.Bulk`,
  `Resp.Array`) is an `Option`, `none` being `nil`.
* Go's `int` is the 64-bit two's-complement integer: an `Int` that `wrapInt`
  brings back into `[-2^63, 2^63)` after every `+`, `*` and `-` of the source.
* A `*bufio.Reader` is the list of bytes not read yet; the stream ends (EOF)
  where the list ends.  Every reading function returns the reader it leaves
  behind next to its result, also when the result is an error, because
  `toArray` keeps going after an error of a child.
* A Go `error` result, and a run-time panic, are values of `Err`.
* `make([]byte, n)` panics when `n` is negative or above `maxAlloc`, the
  allocation limit of the runtime.
* `md5.Sum` of the Go library is the digest of RFC 1321; the routing
  functions take the digest as a parameter.
-/

namespace RedisProxy

/-! ## Machine integers -/

/-- Two's-complement wrap-around of a 64-bit signed `int`:
`(x + 2^63) mod 2^64 - 2^63`.  It is irreducible so that no tactic unfolds it
on a symbolic argument (which would count down from `2^63`); the proofs open
it with `unfold`, and closed evaluations with `unseal wrapInt in`. -/
@[irreducible] def wrapInt (x : Int) : Int :=
  (x + 9223372036854775808) % 18446744073709551616 - 9223372036854775808

/-- The largest size the Go runtime lets a program allocate at once
(`maxAlloc` of the runtime): `2^48` bytes on linux/amd64.  `make([]byte, n)`
panics with `makeslice: len out of range` when `n` is negative or above it.
Up to that size the buffer is taken to be granted: how much memory the
machine has is not part of the embedding. -/
def maxAlloc : Nat := 281474976710656

/-- The subtraction `b - 48` on a `byte`: it wraps modulo 256. -/
def byteSub48 (b : Nat) : Nat := (b + 208) % 256

/-- The value of `int(math.Pow10(e))`.  Up to `e = 18` the float is exactly
`10^e` and fits an `int`.  From `e = 19` on the float (`+Inf` from 309 on) is
outside the range of `int`, where Go leaves the conversion to the
implementation: `ovf e` stands for what the platform returns. -/
def Pow10Int (ovf : Nat → Int) (e : Nat) : Int :=
  if e ≤ 18 then 10 ^ e else wrapInt (ovf e)

/-! ## Failures -/

/-- What a function of the program can give instead of a value. -/
inductive Err where
  /-- An `error` made by `errors.New` or `fmt.Errorf`, with its message. -/
  | error (msg : String)
  /-- The error `io.EOF`. -/
  | EOF
  /-- The error `io.ErrUnexpectedEOF`. -/
  | ErrUnexpectedEOF
  /-- A run-time panic (index or slice bound out of range, negative `make`,
  division by zero). -/
  | panic (msg : String)
  /-- The recursion budget of the embedding ran out (not a Go outcome). -/
  | fuel
  deriving DecidableEq, Repr

/-- An `error` value of Go, as opposed to a panic (or the budget of the
embedding running out). -/
def Err.isError : Err → Bool
  | .error _ => true
  | .EOF => true
  | .ErrUnexpectedEOF => true
  | .panic _ => false
  | .fuel => false

/-! ## util.go -/

/-- The `for` loop of `NumberToBytes` (lines 15-23) on a `num ≥ 0`: one digit
is put in front of `numBytes` per round.  `fuel` bounds the rounds; `num + 1`
rounds are always enough. -/
def numberLoop : Nat → Nat → List Nat → List Nat
  | 0, _, numBytes => numBytes
  | fuel + 1, num, numBytes =>
    if num < 10 then (48 + num) :: numBytes
    else numberLoop fuel (num / 10) ((48 + num % 10) :: numBytes)

/-- `NumberToBytes` with the depth of its self-call bounded by `fuel`;
`none` when the budget does not suffice.  `num * -1` is a machine
multiplication. -/
def NumberToBytesFuel : Nat → Int → Option (List Nat)
  | 0, _ => none
  | fuel + 1, num =>
    if num < 0 then
      match NumberToBytesFuel fuel (wrapInt (num * -1)) with
      | some r => some (45 :: r)
      | none => none
    else some (numberLoop (num.toNat + 1) num.toNat [])

/-- `NumberToBytes`: the self-call is at most one level deep whenever the call
returns at all, so a budget of two decides. -/
def NumberToBytes (num : Int) : Option (List Nat) := NumberToBytesFuel 2 num

/-- The `for ... range` loop of `BytesToNumber` (lines 34-36):
`carry - pos` is the number of bytes after the current one. -/
def bytesLoop (ovf : Nat → Int) : List Nat → Int → Int
  | [], number => number
  | b :: rest, number =>
    bytesLoop ovf rest
      (wrapInt (number + wrapInt ((byteSub48 b : Int) * Pow10Int ovf rest.length)))

/-- `BytesToNumber`: `numBytes[0]` panics on an empty slice. -/
def BytesToNumber (ovf : Nat → Int) : List Nat → Except Err Int
  | [] => .error (.panic "index out of range [0] with length 0")
  | b :: rest =>
    if b = 45 then
      match BytesToNumber ovf rest with
      | .ok n => .ok (wrapInt (-1 * n))
      | .error e => .error e
    else .ok (bytesLoop ovf (b :: rest) 0)

/-! ## Readers -/

/-- The search of `bufio.Reader.ReadBytes` for the delimiter `'\n'` (10):
the bytes up to and including the first `'\n'`, and the bytes after it;
`none` when the stream ends before a `'\n'`. -/
def splitLine : List Nat → Option (List Nat × List Nat)
  | [] => none
  | b :: rest =>
    if b = 10 then some ([10], rest)
    else
      match splitLine rest with
      | some (line, rest1) => some (b :: line, rest1)
      | none => none

/-- `br.ReadBytes('\n')`: at the end of the stream the error is `io.EOF` and
everything was consumed. -/
def ReadBytes (br : List Nat) : Except Err (List Nat) × List Nat :=
  match splitLine br with
  | some (buf, br1) => (.ok buf, br1)
  | none => (.error .EOF, [])

/-- `io.ReadFull(br, buf)` for a `buf` of `n` bytes: `n = 0` reads nothing;
a stream that ends early gives `io.EOF` when no byte was read and
`io.ErrUnexpectedEOF` otherwise. -/
def ReadFull (br : List Nat) (n : Nat) : Except Err (List Nat) × List Nat :=
  if n ≤ br.length then (.ok (br.take n), br.drop n)
  else if br.length = 0 then (.error .EOF, [])
  else (.error .ErrUnexpectedEOF, [])

/-! ## protocol.go -/

/-- `\r\n`. -/
def byteCRLF : List Nat := [13, 10]

def RespTypeSimpleString : Nat := 1
def RespTypeError : Nat := 2
def RespTypeInteger : Nat := 3
def RespTypeBulkString : Nat := 4
def RespTypeArray : Nat := 5

/-- The map `identify`; a byte that is no key reads as the zero value. -/
def identify (b : Nat) : Nat :=
  if b = 43 then RespTypeSimpleString
  else if b = 45 then RespTypeError
  else if b = 58 then RespTypeInteger
  else if b = 36 then RespTypeBulkString
  else if b = 42 then RespTypeArray
  else 0

/-- A `Resp`: the variant is the field `Type`, and each variant carries the
field that `ToRESP` and `ParseResp` use for that `Type` (`Error` carries the
two fields of `RESPerror`). -/
inductive Resp where
  | SimpleString (State : List Nat)
  | Error (errType : List Nat) (errMessage : List Nat)
  | Integer (Integer : List Nat)
  | BulkString (Bulk : Option (List Nat))
  | Array (Array : Option (List Resp))

mutual
/-- `Resp.ToRESP`; `none` when the call does not return a slice (a
`NumberToBytes` without result, or `subRESP[0 : len(subRESP)-2]` out of
range).  The returned `error` of the source is always `nil`. -/
def Resp.ToRESP : Resp → Option (List Nat)
  | .SimpleString State => some (43 :: State ++ byteCRLF)
  | .Error errType errMessage => some (45 :: errType ++ [32] ++ errMessage ++ byteCRLF)
  | .Integer i => some (58 :: i ++ byteCRLF)
  | .BulkString none =>
    match NumberToBytes (-1) with
    | some n => some (36 :: n ++ byteCRLF)
    | none => none
  | .BulkString (some Bulk) =>
    match NumberToBytes Bulk.length with
    | some n => some (36 :: n ++ byteCRLF ++ Bulk ++ byteCRLF)
    | none => none
  | .Array none =>
    match NumberToBytes (-1) with
    | some n => some (42 :: n ++ byteCRLF)
    | none => none
  | .Array (some []) =>
    match NumberToBytes 0 with
    | some n => some (42 :: n ++ byteCRLF)
    | none => none
  | .Array (some (sub :: rest)) =>
    match NumberToBytes (sub :: rest).length, Resp.ToRESPLoop (sub :: rest) with
    | some n, some body => some (42 :: n ++ byteCRLF ++ body ++ byteCRLF)
    | _, _ => none
/-- The `for index, subResp := range resp.Array` loop of `ToRESP` (lines
98-108): what it writes for the elements not yet visited.  The last element
is written without its last two bytes. -/
def Resp.ToRESPLoop : List Resp → Option (List Nat)
  | [] => some []
  | [subResp] =>
    match Resp.ToRESP subResp with
    | some subRESP => if subRESP.length < 2 then none else some (subRESP.take (subRESP.length - 2))
    | none => none
  | subResp :: next :: rest =>
    match Resp.ToRESP subResp, Resp.ToRESPLoop (next :: rest) with
    | some subRESP, some more => some (subRESP ++ more)
    | _, _ => none
end

/-- `toSimpleString`. -/
def toSimpleString (br data : List Nat) : Except Err Resp × List Nat :=
  (.ok (.SimpleString data), br)

/-- `bytes.Split(data, []byte(" "))`: the fields between the spaces, at least
one. -/
def splitSpace : List Nat → List (List Nat)
  | [] => [[]]
  | b :: rest =>
    if b = 32 then [] :: splitSpace rest
    else
      match splitSpace rest with
      | [] => [[b]]
      | f :: fs => (b :: f) :: fs

/-- `bytes.Join(fields, []byte(" "))`. -/
def joinSpace : List (List Nat) → List Nat
  | [] => []
  | [f] => f
  | f :: g :: fs => f ++ [32] ++ joinSpace (g :: fs)

/-- `toError`. -/
def toError (br data : List Nat) : Except Err Resp × List Nat :=
  match splitSpace data with
  | f0 :: f1 :: fs => (.ok (.Error f0 (joinSpace (f1 :: fs))), br)
  | _ => (.error (.error "invalid error respose"), br)

/-- `toInteger`. -/
def toInteger (br data : List Nat) : Except Err Resp × List Nat :=
  (.ok (.Integer data), br)

/-- `toBulkString`.  `make([]byte, bytesNum+2)` panics when the machine sum
`bytesNum+2` is negative (it wrapped) or above `maxAlloc`. -/
def toBulkString (ovf : Nat → Int) (br data : List Nat) : Except Err Resp × List Nat :=
  match BytesToNumber ovf data with
  | .error e => (.error e, br)
  | .ok bytesNum =>
    if bytesNum = -1 then (.ok (.BulkString none), br)
    else if bytesNum ≤ 0 then (.error (.error "invalid bulk string length"), br)
    else if wrapInt (bytesNum + 2) < 0 ∨ (maxAlloc : Int) < wrapInt (bytesNum + 2) then
      (.error (.panic "makeslice: len out of range"), br)
    else
      match ReadFull br (wrapInt (bytesNum + 2)).toNat with
      | (.error e, br1) => (.error e, br1)
      | (.ok buf, br1) =>
        if buf.length < 2 then (.error (.panic "slice bounds out of range"), br1)
        else (.ok (.BulkString (some (buf.take (buf.length - 2)))), br1)

/-- `append(resp.Array, subResp)`. -/
def appendResp (arr : Option (List Resp)) (subResp : Resp) : Option (List Resp) :=
  match arr with
  | none => some [subResp]
  | some l => some (l ++ [subResp])

/-- The `for` loop of `toArray` (lines 214-233) with `bytesNum` rounds left.
`buf, err := ...` declares a new `err` inside the loop body, so the `err`
returned at line 234 is the outer one, which is never assigned: each `break`
leaves with the array gathered so far and a `nil` error.  A panic of the
child is no `error` value and goes up. -/
def toArrayLoop (parse : List Nat → List Nat → Except Err Resp × List Nat) :
    Nat → List Nat → Option (List Resp) → Except Err Resp × List Nat
  | 0, br, arr => (.ok (.Array arr), br)
  | bytesNum + 1, br, arr =>
    match ReadBytes br with
    | (.error _, br1) => (.ok (.Array arr), br1)
    | (.ok buf, br1) =>
      if buf.length < 4 then (.ok (.Array arr), br1)
      else
        match parse br1 (buf.take (buf.length - 2)) with
        | (.error (.panic msg), br2) => (.error (.panic msg), br2)
        | (.error .fuel, br2) => (.error .fuel, br2)
        | (.error _, br2) => (.ok (.Array arr), br2)
        | (.ok subResp, br2) => toArrayLoop parse bytesNum br2 (appendResp arr subResp)

/-- `toArray`, the parser of the children (`ParseResp`) being `parse`. -/
def toArray (ovf : Nat → Int) (parse : List Nat → List Nat → Except Err Resp × List Nat)
    (br data : List Nat) : Except Err Resp × List Nat :=
  match BytesToNumber ovf data with
  | .error e => (.error e, br)
  | .ok bytesNum =>
    if bytesNum = 0 then toArrayLoop parse bytesNum.toNat br (some [])
    else if bytesNum < -1 then (.error (.error "invalid array respose number"), br)
    else toArrayLoop parse bytesNum.toNat br none

/-- `ParseResp`; `fuel` bounds the nesting depth of arrays. -/
def ParseResp (ovf : Nat → Int) : Nat → List Nat → List Nat → Except Err Resp × List Nat
  | 0, br, _ => (.error .fuel, br)
  | fuel + 1, br, resp =>
    match resp with
    | [] => (.error (.panic "index out of range [0] with length 0"), br)
    | tag :: data =>
      if identify tag = RespTypeSimpleString then toSimpleString br data
      else if identify tag = RespTypeError then toError br data
      else if identify tag = RespTypeInteger then toInteger br data
      else if identify tag = RespTypeBulkString then toBulkString ovf br data
      else if identify tag = RespTypeArray then toArray ovf (ParseResp ovf fuel) br data
      else (.error (.error "invalid response type: 0"), br)

/-! ## conn.go -/

/-- `Conn.ReadResponse` on the reader of the connection.  A frame nests at
most as deep as it has bytes, so the budget given to `ParseResp` never runs
out. -/
def ReadResponse (ovf : Nat → Int) (br : List Nat) : Except Err Resp × List Nat :=
  match ReadBytes br with
  | (.error e, br1) => (.error e, br1)
  | (.ok buf, br1) =>
    if buf.length < 4 then (.error (.error "invalid response"), br1)
    else ParseResp ovf (br1.length + 1) br1 (buf.take (buf.length - 2))

/-! ## command.go -/

/-- A `Command`: `Name` is a Go string, that is, a sequence of bytes. -/
structure Command where
  Name : List Nat
  Params : List (List Nat)
  deriving DecidableEq, Repr

/-- The `for _, param := range params` loop of `Command.ToRESP` (lines
31-37). -/
def Command.ToRESPLoop : List (List Nat) → Option (List Nat)
  | [] => some []
  | param :: rest =>
    match NumberToBytes param.length, Command.ToRESPLoop rest with
    | some n, some more => some (36 :: n ++ byteCRLF ++ param ++ byteCRLF ++ more)
    | _, _ => none

/-- `Command.ToRESP`; `none` when a `NumberToBytes` gives no result.
`params` ends up as the name followed by a copy of `cmd.Params`. -/
def Command.ToRESP (cmd : Command) : Option (List Nat) :=
  (NumberToBytes (wrapInt (1 + cmd.Params.length))).bind fun n =>
    (Command.ToRESPLoop (cmd.Name :: cmd.Params)).map fun body =>
      42 :: n ++ byteCRLF ++ body

/-- The bytes of `"PING"`. -/
def bytesPING : List Nat := [80, 73, 78, 71]

/-- `PING()`. -/
def PING : Command := { Name := bytesPING, Params := [] }

/-- `GET(key)`. -/
def GET (key : List Nat) : Command := { Name := [71, 69, 84], Params := [key] }

/-- `SET(key, val)`. -/
def SET (key val : List Nat) : Command := { Name := [83, 69, 84], Params := [key, val] }

/-- `RawComand(name, params...)`. -/
def RawComand (name : List Nat) (params : List (List Nat)) : Command :=
  { Name := name, Params := params }

/-- `parseCommandArg`.  `make([]byte, n+2)` panics when the machine sum `n+2`
is negative or above `maxAlloc`; nothing checks `n` before. -/
def parseCommandArg (ovf : Nat → Int) (br : List Nat) : Except Err (List Nat) × List Nat :=
  match ReadBytes br with
  | (.error e, br1) => (.error e, br1)
  | (.ok buf, br1) =>
    match buf with
    | [] => (.error (.panic "index out of range [0] with length 0"), br1)
    | b0 :: _ =>
      if b0 ≠ 36 then (.error (.error "it should be $ as identify"), br1)
      else if buf.length < 4 then (.error (.error "invalid args length"), br1)
      else
        match BytesToNumber ovf ((buf.take (buf.length - 2)).drop 1) with
        | .error e => (.error e, br1)
        | .ok n =>
          if wrapInt (n + 2) < 0 ∨ (maxAlloc : Int) < wrapInt (n + 2) then
            (.error (.panic "makeslice: len out of range"), br1)
          else
            match ReadFull br1 (wrapInt (n + 2)).toNat with
            | (.error e, br2) => (.error e, br2)
            | (.ok arg, br2) =>
              if arg.length < 2 then (.error (.panic "slice bounds out of range"), br2)
              else (.ok (arg.take (arg.length - 2)), br2)

/-- The `for i := 0; i < argLen; i++` loop of `UnpackCommand` (lines
176-182) with `n` rounds left and `args` gathered so far. -/
def unpackLoop (ovf : Nat → Int) :
    Nat → List Nat → List (List Nat) → Except Err (List (List Nat)) × List Nat
  | 0, br, args => (.ok args, br)
  | n + 1, br, args =>
    match parseCommandArg ovf br with
    | (.error e, br1) => (.error e, br1)
    | (.ok arg, br1) => unpackLoop ovf n br1 (args ++ [arg])

/-- `UnpackCommand`. -/
def UnpackCommand (ovf : Nat → Int) (br req : List Nat) : Except Err Command × List Nat :=
  if req = bytesPING then (.ok PING, br)
  else
    match req with
    | [] => (.error (.panic "slice bounds out of range [1:0]"), br)
    | _ :: req1 =>
      match BytesToNumber ovf req1 with
      | .error e => (.error e, br)
      | .ok argLen =>
        if argLen < 1 then (.error (.error "command can't be empty"), br)
        else
          match unpackLoop ovf argLen.toNat br [] with
          | (.error e, br1) => (.error e, br1)
          | (.ok args, br1) =>
            match args with
            | [] => (.error (.panic "index out of range [0] with length 0"), br1)
            | name :: params => (.ok (RawComand name params), br1)

/-! ## client.go -/

/-- One round of `Client.IOLoop` up to the decoded command (lines 34-47):
the first line is read, checked for its length and handed to
`UnpackCommand` without its last two bytes. -/
def IOLoopReadCommand (ovf : Nat → Int) (br : List Nat) : Except Err Command × List Nat :=
  match ReadBytes br with
  | (.error e, br1) => (.error e, br1)
  | (.ok buf, br1) =>
    if buf.length < 4 then (.error (.error "invalid response"), br1)
    else UnpackCommand ovf br1 (buf.take (buf.length - 2))

/-! ## crypto/md5

The digest that `acquireSvcConn` takes of the shard key.  The functions of
`proxy.go` below take it as the parameter `md5Sum`; `md5.Sum` is the digest
itself, for the evaluations on concrete keys. -/

/-- The per-round left-rotation amounts of MD5. -/
def md5Shifts : List Nat :=
  [7, 12, 17, 22, 7, 12, 17, 22, 7, 12, 17, 22, 7, 12, 17, 22,
   5, 9, 14, 20, 5, 9, 14, 20, 5, 9, 14, 20, 5, 9, 14, 20,
   4, 11, 16, 23, 4, 11, 16, 23, 4, 11, 16, 23, 4, 11, 16, 23,
   6, 10, 15, 21, 6, 10, 15, 21, 6, 10, 15, 21, 6, 10, 15, 21]

/-- The additive constants of MD5, `floor (2^32 * |sin (i + 1)|)`. -/
def md5Table : List Nat :=
  [3614090360, 3905402710, 606105819, 3250441966, 4118548399, 1200080426, 2821735955, 4249261313,
   1770035416, 2336552879, 4294925233, 2304563134, 1804603682, 4254626195, 2792965006, 1236535329,
   4129170786, 3225465664, 643717713, 3921069994, 3593408605, 38016083, 3634488961, 3889429448,
   568446438, 3275163606, 4107603335, 1163531501, 2850285829, 4243563512, 1735328473, 2368359562,
   4294588738, 2272392833, 1839030562, 4259657740, 2763975236, 1272893353, 4139469664, 3200236656,
   681279174, 3936430074, 3572445317, 76029189, 3654602809, 3873151461, 530742520, 3299628645,
   4096336452, 1126891415, 2878612391, 4237533241, 1700485571, 2399980690, 4293915773, 2240044497,
   1873313359, 4264355552, 2734768916, 1309151649, 4149444226, 3174756917, 718787259, 3951481745]

/-- Rotation of a 32-bit word to the left by `c` bits. -/
def rotl32 (x c : Nat) : Nat := ((x <<< c) ||| (x >>> (32 - c))) % 4294967296

/-- The `k` low bytes of `n`, least significant first. -/
def leBytes (n k : Nat) : List Nat := (List.range k).map (fun i => (n >>> (8 * i)) % 256)

/-- The number whose bytes, least significant first, are `bs`. -/
def leWord : List Nat → Nat
  | [] => 0
  | b :: rest => b + 256 * leWord rest

/-- The message followed by the padding of MD5: the byte `0x80`, zero bytes up
to 56 modulo 64, and the length in bits as 8 bytes. -/
def md5Pad (msg : List Nat) : List Nat :=
  msg ++ [128] ++ List.replicate ((119 - msg.length % 64) % 64) 0
    ++ leBytes (8 * msg.length % 18446744073709551616) 8

/-- One of the 64 operations of MD5 on the state `(a, b, c, d)`, with the 16
words `M` of the block. -/
def md5Step (M : List Nat) (st : Nat × Nat × Nat × Nat) (i : Nat) : Nat × Nat × Nat × Nat :=
  let A := st.1
  let B := st.2.1
  let C := st.2.2.1
  let D := st.2.2.2
  let F :=
    if i < 16 then (B &&& C) ||| ((B ^^^ 4294967295) &&& D)
    else if i < 32 then (D &&& B) ||| ((D ^^^ 4294967295) &&& C)
    else if i < 48 then B ^^^ C ^^^ D
    else C ^^^ (B ||| (D ^^^ 4294967295))
  let g :=
    if i < 16 then i
    else if i < 32 then (5 * i + 1) % 16
    else if i < 48 then (3 * i + 5) % 16
    else (7 * i) % 16
  let F1 := (F + A + md5Table.getD i 0 + M.getD g 0) % 4294967296
  (D, (B + rotl32 F1 (md5Shifts.getD i 0)) % 4294967296, B, C)

/-- The state after one 64-byte block. -/
def md5Block (st : Nat × Nat × Nat × Nat) (block : List Nat) : Nat × Nat × Nat × Nat :=
  let M := (List.range 16).map (fun j => leWord ((block.drop (4 * j)).take 4))
  let r := (List.range 64).foldl (md5Step M) st
  ((st.1 + r.1) % 4294967296, (st.2.1 + r.2.1) % 4294967296,
   (st.2.2.1 + r.2.2.1) % 4294967296, (st.2.2.2 + r.2.2.2) % 4294967296)

/-- `md5.Sum` of the Go library (`crypto/md5`): the MD5 digest of `data` as
RFC 1321 defines it, 16 bytes. -/
def md5.Sum (data : List Nat) : List Nat :=
  let padded := md5Pad data
  let blocks := (List.range (padded.length / 64)).map (fun k => (padded.drop (64 * k)).take 64)
  let r := blocks.foldl md5Block (1732584193, 4023233417, 2562383102, 271733878)
  leBytes r.1 4 ++ leBytes r.2.1 4 ++ leBytes r.2.2.1 4 ++ leBytes r.2.2.2 4

/-! ## proxy.go -/

/-- `HashTag`. -/
structure HashTag where
  left : Nat
  right : Nat
  deriving DecidableEq, Repr

/-- `NewHashTag`. -/
def NewHashTag (left right : Nat) : HashTag := { left := left, right := right }

/-- A backend connection, known by the address it was dialled with. -/
structure Conn where
  addr : String
  deriving DecidableEq, Repr

/-- The fields of `Proxy` that routing reads: the map `clusters` (the first
pair with a given key is its entry), `clusterNames` and `ht`. -/
structure Proxy where
  clusters : List (String × Conn)
  clusterNames : List String
  ht : HashTag

/-- `bytes.IndexByte(b, c)`: the index of the first `c` in `b`, or `-1`. -/
def IndexByte : List Nat → Nat → Int
  | [], _ => -1
  | x :: rest, c =>
    if x = c then 0
    else if IndexByte rest c < 0 then -1 else IndexByte rest c + 1

/-- Lines 172-177 of `acquireSvcConn`: the shard key taken from parameter 0.
The slice `shardKey[leftPos+1 : rightPos]` is in range under the test that
guards it. -/
def shardKey (ht : HashTag) (param0 : List Nat) : List Nat :=
  let leftPos := IndexByte param0 ht.left
  let rightPos := IndexByte param0 ht.right
  if leftPos ≥ 0 ∧ rightPos > leftPos + 1 then
    (param0.take rightPos.toNat).drop (leftPos + 1).toNat
  else param0

/-- Lines 171-183 of `acquireSvcConn`: the value of `index` for `K` backend
names.  `md5Sum` is `md5.Sum` of the Go library (16 bytes, so that `total`
stays below 4096).  `total % K` panics for `K = 0`. -/
def routeIndex (md5Sum : List Nat → List Nat) (ht : HashTag) (K : Nat) (cmd : Command) :
    Except Err Nat :=
  match cmd.Params with
  | [] => .ok 0
  | param0 :: _ =>
    if K = 0 then .error (.panic "integer divide by zero")
    else .ok ((md5Sum (shardKey ht param0)).sum % K)

/-- `acquireSvcConn`. -/
def acquireSvcConn (md5Sum : List Nat → List Nat) (p : Proxy) (cmd : Command) :
    Except Err Conn :=
  match routeIndex md5Sum p.ht p.clusterNames.length cmd with
  | .error e => .error e
  | .ok index =>
    match p.clusterNames.get? index with
    | none => .error (.panic "index out of range")
    | some name =>
      match p.clusters.lookup name with
      | some conn => .ok conn
      | none => .error (.error "acquire redis conn failure")

/-! ## The backend registry and the dispatcher (proxy.go, conn.go) -/

/-- The text of an error value, `err.Error()`. -/
def Err.text : Err → String
  | .error msg => msg
  | .EOF => "EOF"
  | .ErrUnexpectedEOF => "unexpected EOF"
  | .panic msg => msg
  | .fuel => ""

/-- What the other end of a backend connection does: the error of the dial
(if any), the error of a write followed by a flush (if any), and the bytes
it sends in answer. -/
structure Backend where
  dial : Option Err
  write : Option Err
  reply : List Nat

/-- The bytes of `"PONG"`. -/
def bytesPONG : List Nat := [80, 79, 78, 71]

/-- `Conn.Connect`: dial, write `PING()`, read one response and check that
it is the simple string `PONG`; the result is the returned `error` (`none`
for `nil`; a panic of the parser is passed on as it is). -/
def Connect (ovf : Nat → Int) (b : Backend) : Option Err :=
  match b.dial with
  | some err => some err
  | none =>
    match b.write with
    | some err => some err
    | none =>
      match (ReadResponse ovf b.reply).1 with
      | .error err => some err
      | .ok (.SimpleString State) =>
        if State = bytesPONG then none else some (.error "backend redis error: ping failure")
      | .ok _ => some (.error "backend redis error: ping failure")

/-- `New`: the registry of backends starts empty, the delimiters are `{`
and `}`. -/
def New : Proxy := { clusters := [], clusterNames := [], ht := NewHashTag 123 125 }

/-- `Proxy.ConnectRedis` for the address `addr` (`conf.ClusterAddrs[0]`): the
returned `error` and the proxy afterwards.  On success the map entry is set
and the name is appended, both under `clusterLock`.  An `error` of `Connect`
is wrapped into a new one; a panic inside `Connect` is no returned value and
goes up through `ConnectRedis` as it is. -/
def ConnectRedis (ovf : Nat → Int) (p : Proxy) (addr : String) (b : Backend) :
    Option Err × Proxy :=
  match Connect ovf b with
  | some err =>
    if err.isError then (some (.error ("cluster node[" ++ addr ++ "] error: " ++ err.text)), p)
    else (some err, p)
  | none =>
    (none, { p with clusters := (addr, Conn.mk addr) :: p.clusters,
                    clusterNames := p.clusterNames ++ [addr] })

/-- A `transaction` without its `doneChan`, which is the channel that
`ChanOp` speaks about. -/
structure transaction where
  cmd : Command
  resp : Option Resp
  Error : Option Err

/-- The transaction that `Client.IOLoop` puts on `transactionChan` for a
decoded command (line 50), the only send on that channel: `cmd` is set (and
`doneChan`), `resp` and `Error` are `nil`. -/
def IOLoopTransaction (cmd : Command) : transaction :=
  { cmd := cmd, resp := none, Error := none }

/-- An operation on the reply channel `doneChan` of a transaction. -/
inductive ChanOp where
  | send (t : transaction)
  | close

/-- The zero `Command` of a reply built as `&transaction{...}` (its `cmd` is
`nil`). -/
def nilCommand : Command := { Name := [], Params := [] }

/-- `Proxy.WriteCommand`: route, write the command, read one response.
`backend conn` is what the backend behind `conn` does. -/
def Proxy.WriteCommand (md5Sum : List Nat → List Nat) (ovf : Nat → Int) (p : Proxy)
    (backend : Conn → Backend) (cmd : Command) : Except Err Resp :=
  match acquireSvcConn md5Sum p cmd with
  | .error err => .error err
  | .ok conn =>
    match (backend conn).write with
    | some err => .error err
    | none => (ReadResponse ovf (backend conn).reply).1

/-- One round of the loop of `Proxy.Serve` for the transaction `trans` taken
from `transactionChan`: the operations performed on `trans.doneChan`, or the
panic that ends the dispatcher (and with it the process).  The one send comes
after `WriteCommand` has returned, so a round that panics has sent nothing. -/
def ServeRound (md5Sum : List Nat → List Nat) (ovf : Nat → Int) (p : Proxy)
    (backend : Conn → Backend) (trans : transaction) : Except Err (List ChanOp) :=
  match trans.Error with
  | some _ => .ok []
  | none =>
    match Proxy.WriteCommand md5Sum ovf p backend trans.cmd with
    | .error err =>
      if err.isError then .ok [.send { cmd := nilCommand, resp := none, Error := some err }]
      else .error err
    | .ok resp => .ok [.send { cmd := nilCommand, resp := some resp, Error := none }]

/-! ## Startup (Proxy.Run)

`Run` starts one goroutine per configured address (`wg.Wrap`), waits for all
of them (`wg.Wait`), looks once at `errChan` (`select` with `default`) and
then serves.  The goroutines run concurrently: a schedule is the list of
who moves next, the goroutine of address number `i` (`i < K`) or `Run`
itself (any other number).  `errChan` is unbuffered, so a send on it
blocks until `Run` receives, and `Run` receives only in its `select`. -/

/-- Where the goroutine of one address stands: still in `ConnectRedis`,
blocked in `errChan <- err`, or finished (its `Done` was called). -/
inductive DialTask where
  | running
  | sending (err : Err)
  | done
  deriving DecidableEq

/-- Where `Run` stands: in `wg.Wait()`, at the `select`, returned with an
error, or past `go p.Serve()` and in the accept loop; or the whole process
was ended by a panic in one of the goroutines (nothing recovers from it). -/
inductive RunPhase where
  | waiting
  | selecting
  | returned (err : Err)
  | serving
  | crashed (err : Err)
  deriving DecidableEq

/-- The state of a starting proxy. -/
structure RunState where
  proxy : Proxy
  tasks : List DialTask
  phase : RunPhase

/-- `Run` up to `p.wg.Wait()`: the check of the address list, `net.Listen`
(with its error `listen`, if any) and the start of the goroutines. -/
def RunInit (p : Proxy) (addrs : List String) (listen : Option Err) : RunState :=
  if addrs.length = 0 then
    { proxy := p, tasks := [], phase := .returned (.error "invalid cluster addrs") }
  else
    match listen with
    | some err => { proxy := p, tasks := [], phase := .returned err }
    | none => { proxy := p, tasks := addrs.map (fun _ => DialTask.running), phase := .waiting }

/-- The first goroutine blocked in `errChan <- err`, with its error. -/
def readySender : List DialTask → Option (Nat × Err)
  | [] => none
  | .sending err :: _ => some (0, err)
  | _ :: rest =>
    match readySender rest with
    | some (i, err) => some (i + 1, err)
    | none => none

/-- One step of the starting proxy, taken by `who`.
A goroutine in `ConnectRedis` finishes it: on success the registry is
updated and the goroutine is done; on a returned error it goes on to send
the error; a panic ends the process, after which nobody moves.
A goroutine that is sending, or done, does not move.
`Run` leaves `wg.Wait()` once every goroutine is done; at the `select` it
receives from a goroutine that is sending and returns its error, or else
takes the `default` and serves. -/
def RunStep (ovf : Nat → Int) (addrs : List String) (backend : String → Backend)
    (s : RunState) (who : Nat) : RunState :=
  match s.phase with
  | .crashed _ => s
  | phase =>
    if who < addrs.length then
      match s.tasks.get? who, addrs.get? who with
      | some .running, some addr =>
        match ConnectRedis ovf s.proxy addr (backend addr) with
        | (none, p1) => { proxy := p1, tasks := s.tasks.set who .done, phase := phase }
        | (some err, _) =>
          if err.isError then
            { proxy := s.proxy, tasks := s.tasks.set who (.sending err), phase := phase }
          else { proxy := s.proxy, tasks := s.tasks, phase := .crashed err }
      | _, _ => s
    else
      match phase with
      | .waiting =>
        if s.tasks.all (fun t => t = .done) then { s with phase := .selecting } else s
      | .selecting =>
        match readySender s.tasks with
        | some (i, err) => { s with tasks := s.tasks.set i .done, phase := .returned err }
        | none => { s with phase := .serving }
      | .returned _ => s
      | .serving => s
      | .crashed _ => s

/-- The starting proxy after the steps of a schedule. -/
def RunUnder (ovf : Nat → Int) (p : Proxy) (addrs : List String) (listen : Option Err)
    (backend : String → Backend) (schedule : List Nat) : RunState :=
  schedule.foldl (RunStep ovf addrs backend) (RunInit p addrs listen)

/-! ## Notions used in the statements and proofs -/

/-- The bytes written by the digit loop for `n`. -/
def natBytes (n : Nat) : List Nat := numberLoop (n + 1) n []

/-- Every byte is an ASCII digit. -/
def AllDigits (l : List Nat) : Prop := ∀ b ∈ l, 48 ≤ b ∧ b ≤ 57

/-- The positional value of a list of ASCII digits. -/
def digitsVal : List Nat → Nat
  | [] => 0
  | b :: rest => (b - 48) * 10 ^ rest.length + digitsVal rest

/-- The bytes of an ASCII text. -/
def bytesOf (s : String) : List Nat := s.toList.map Char.toNat

/-- The conversion `int(math.Pow10(e))` of an out-of-range float on amd64:
the most negative `int`. -/
def ovfAmd64 : Nat → Int := fun _ => -9223372036854775808

/-- The index of the first `c` in `key`, if there is one. -/
def firstIndex (key : List Nat) (c : Nat) : Option Nat :=
  if c ∈ key then some (key.indexOf c) else none

/-- The shard key in the words of the specification (4.4): with `L` the
position of the first left delimiter and `R` the position of the first right
delimiter, the bytes at the positions `L+1 .. R-1` when `R > L+1`, and the
whole parameter otherwise. -/
def specShardKey (key : List Nat) : List Nat :=
  match firstIndex key 123, firstIndex key 125 with
  | some L, some R =>
    if R > L + 1 then (List.range (R - (L + 1))).map (fun i => key.getD (L + 1 + i) 0)
    else key
  | _, _ => key

/-- The hash tag in the words of the specification (3), as in Redis Cluster:
everything strictly between the first left delimiter and the next right
delimiter, provided at least one byte lies between them; otherwise the whole
key. -/
def specHashTag (key : List Nat) : List Nat :=
  match (key.dropWhile (fun b => b ≠ 123)) with
  | [] => key
  | _ :: after =>
    if 125 ∈ after ∧ after.takeWhile (fun b => b ≠ 125) ≠ [] then
      after.takeWhile (fun b => b ≠ 125)
    else key

/-- Two backends `A` and `B`, in this order, with the delimiters `{` and `}`. -/
def exampleProxy : Proxy :=
  { clusters := [("A", Conn.mk "A"), ("B", Conn.mk "B")], clusterNames := ["A", "B"],
    ht := NewHashTag 123 125 }

/-- A stand-in for `md5.Sum` in the examples: the first 16 bytes of the key. -/
def exampleDigest : List Nat → List Nat := fun key => key.take 16

/-- What the loop of `Command.ToRESP` writes for a list of parameters: each
one as a bulk string. -/
def encodeArgs : List (List Nat) → List Nat
  | [] => []
  | param :: rest =>
    36 :: natBytes param.length ++ byteCRLF ++ param ++ byteCRLF ++ encodeArgs rest

/-- The bytes of a command on the wire. -/
def encodeCommand (cmd : Command) : List Nat :=
  42 :: natBytes (1 + cmd.Params.length) ++ byteCRLF ++ encodeArgs (cmd.Name :: cmd.Params)

deriving instance DecidableEq for Except

mutual
/-- The bytes of a value on the wire, as `Resp.ToRESP` writes them. -/
def frame : Resp → List Nat
  | .SimpleString State => 43 :: State ++ byteCRLF
  | .Error errType errMessage => 45 :: errType ++ [32] ++ errMessage ++ byteCRLF
  | .Integer i => 58 :: i ++ byteCRLF
  | .BulkString none => [36, 45, 49, 13, 10]
  | .BulkString (some Bulk) => 36 :: natBytes Bulk.length ++ byteCRLF ++ Bulk ++ byteCRLF
  | .Array none => [42, 45, 49, 13, 10]
  | .Array (some []) => [42, 48, 13, 10]
  | .Array (some (sub :: rest)) =>
    42 :: natBytes (sub :: rest).length ++ byteCRLF ++ frames (sub :: rest)
/-- The frames of the elements of an array, one after the other. -/
def frames : List Resp → List Nat
  | [] => []
  | sub :: rest => frame sub ++ frames rest
end

mutual
/-- The values whose frame the response reader reads back: no LF in a line,
a payload byte in every simple string and integer, no space in an error
type, no empty bulk string, and sizes within what a program can hold: a bulk
string that, with its `\r\n`, is no larger than `maxAlloc`, and an array
count that fits an `int`. -/
def Resp.Canonical : Resp → Prop
  | .SimpleString State => State ≠ [] ∧ 10 ∉ State
  | .Error errType errMessage => 32 ∉ errType ∧ 10 ∉ errType ∧ 10 ∉ errMessage
  | .Integer i => i ≠ [] ∧ 10 ∉ i
  | .BulkString none => True
  | .BulkString (some Bulk) => Bulk ≠ [] ∧ Bulk.length + 2 ≤ maxAlloc
  | .Array none => True
  | .Array (some l) => l.length < 9223372036854775808 ∧ Resp.CanonicalList l
/-- Every element of the list is canonical. -/
def Resp.CanonicalList : List Resp → Prop
  | [] => True
  | sub :: rest => Resp.Canonical sub ∧ Resp.CanonicalList rest
end

mutual
/-- How many calls of `ParseResp` are nested inside the call that parses the
value: one more than for its deepest element. -/
def Resp.depth : Resp → Nat
  | .SimpleString _ => 0
  | .Error _ _ => 0
  | .Integer _ => 0
  | .BulkString _ => 0
  | .Array none => 0
  | .Array (some l) => Resp.depthList l
/-- The largest `depth + 1` among the elements. -/
def Resp.depthList : List Resp → Nat
  | [] => 0
  | sub :: rest => max (Resp.depth sub + 1) (Resp.depthList rest)
end

/-- Reading one frame with the parser `parse`: a line is read, checked for
its length and handed to `parse` without its last two bytes.  This is the
body of `ReadResponse` and of one round of the loop of `toArray`. -/
def readFrame (parse : List Nat → List Nat → Except Err Resp × List Nat) (br : List Nat) :
    Except Err Resp × List Nat :=
  match ReadBytes br with
  | (.error e, br1) => (.error e, br1)
  | (.ok buf, br1) =>
    if buf.length < 4 then (.error (.error "invalid response"), br1)
    else parse br1 (buf.take (buf.length - 2))

/-- What the response reader does on the frame of `v`: the first line
`line` is read and is long enough, `tail` is what the frame holds after that
line (no shorter than the nesting depth), and `ParseResp` with enough budget
gives `v` back and stops right after the frame. -/
def ReadsBack (ovf : Nat → Int) (v : Resp) : Prop :=
  ∃ line tail, (∀ rest, ReadBytes (frame v ++ rest) = (.ok line, tail ++ rest)) ∧
    4 ≤ line.length ∧ v.depth ≤ tail.length ∧
    ∀ fuel rest, v.depth < fuel →
      ParseResp ovf fuel (tail ++ rest) (line.take (line.length - 2)) = (.ok v, rest)

/-- A reply with every kind of value, arrays nested three deep, a null and
an empty array and a null bulk string. -/
def exampleReply : Resp :=
  .Array (some [.SimpleString (bytesOf "OK"), .Error (bytesOf "ERR") (bytesOf "no such key"),
    .Integer (bytesOf "-7"), .BulkString none, .BulkString (some (bytesOf "bar")),
    .Array none, .Array (some []),
    .Array (some [.Array (some [.Integer (bytesOf "1")]), .BulkString (some (bytesOf "x"))])])

/-- The ASCII decimal digits of `n`, most significant first, with no leading
zero (`0` for zero), as the library prints a natural number. -/
def decimal (n : Nat) : List Nat := (Nat.toDigits 10 n).map Char.toNat

/-- A bulk string on the wire, in the words of the specification: `$`, the
decimal length, `\r\n`, the bytes, `\r\n`. -/
def specBulk (param : List Nat) : List Nat :=
  36 :: decimal param.length ++ byteCRLF ++ param ++ byteCRLF

/-- A command on the wire, in the words of the specification: an array of
the bulk strings name, parameter 1, .., parameter n. -/
def specCommand (cmd : Command) : List Nat :=
  42 :: decimal (cmd.Params.length + 1) ++ byteCRLF
    ++ ((cmd.Name :: cmd.Params).map specBulk).flatten

/-- The proxy after a sequence of `ConnectRedis` calls, each with its address
and with what its backend does. -/
def connectAll (ovf : Nat → Int) (p : Proxy) (calls : List (String × Backend)) : Proxy :=
  calls.foldl (fun q call => (ConnectRedis ovf q call.1 call.2).2) p

/-- A backend that answers the handshake with `+PONG\r\n`. -/
def backendPong : Backend := { dial := none, write := none, reply := bytesOf "+PONG\r\n" }

/-- A backend that answers the handshake with `+NOTPONG\r\n`. -/
def backendNotPong : Backend := { dial := none, write := none, reply := bytesOf "+NOTPONG\r\n" }

/-- A backend that answers a command with `$3\r\nbar\r\n`. -/
def backendBar : Backend := { dial := none, write := none, reply := bytesOf "$3\r\nbar\r\n" }

/-- A backend that answers a command with `$-\r\n`. -/
def backendLoneMinus : Backend := { dial := none, write := none, reply := bytesOf "$-\r\n" }

/-- The goroutine of address number `i` has not finished and `Run` is still
in `wg.Wait()`. -/
def Stuck (i : Nat) (s : RunState) : Prop :=
  s.phase = .waiting ∧
    (s.tasks.get? i = some .running ∨ ∃ err, s.tasks.get? i = some (.sending err))

/-- The two backends of the examples: `A` answers PONG, `B` answers NOTPONG. -/
def backendsOneBad : String → Backend :=
  fun addr => if addr = "B" then backendNotPong else backendPong

/-! ## Theorems -/


/-! ## The integer codec -/

theorem wrapInt_of_range (x : Int) (h1 : -9223372036854775808 ≤ x)
    (h2 : x < 9223372036854775808) : wrapInt x = x := by
  unfold wrapInt
  omega

theorem numberLoop_allDigits (fuel : Nat) : ∀ (num : Nat) (acc : List Nat),
    AllDigits acc → AllDigits (numberLoop fuel num acc) := by
  induction fuel with
  | zero => intro num acc h; simpa [numberLoop] using h
  | succ f ih =>
    intro num acc h
    unfold numberLoop
    split
    · intro b hb
      rcases List.mem_cons.mp hb with hb | hb
      · subst hb; omega
      · exact h b hb
    · apply ih
      intro b hb
      rcases List.mem_cons.mp hb with hb | hb
      · subst hb; omega
      · exact h b hb

theorem numberLoop_val (fuel : Nat) : ∀ (num : Nat) (acc : List Nat), num < fuel →
    digitsVal (numberLoop fuel num acc) = num * 10 ^ acc.length + digitsVal acc := by
  induction fuel with
  | zero => intro num acc h; omega
  | succ f ih =>
    intro num acc h
    unfold numberLoop
    split
    · simp [digitsVal]
    · rename_i h10
      rw [ih (num / 10) _ (by omega)]
      simp only [digitsVal, List.length_cons, Nat.add_sub_cancel_left, pow_succ]
      have := Nat.div_add_mod num 10
      generalize 10 ^ acc.length = p
      generalize num / 10 = q at *
      generalize num % 10 = r at *
      subst this
      ring

theorem numberLoop_length (fuel : Nat) : ∀ (num : Nat) (acc : List Nat) (k : Nat),
    num < fuel → 1 ≤ k → num < 10 ^ k →
    (numberLoop fuel num acc).length ≤ k + acc.length := by
  induction fuel with
  | zero => intro num acc k h; omega
  | succ f ih =>
    intro num acc k h hk hlt
    unfold numberLoop
    split
    · simp; omega
    · rename_i h10
      have hk2 : 2 ≤ k := by
        by_contra hc
        have : k = 1 := by omega
        subst this
        simp at hlt
        omega
      have := ih (num / 10) ((48 + num % 10) :: acc) (k - 1) (by omega) (by omega) (by
        have : 10 ^ k = 10 ^ (k - 1) * 10 := by
          rw [← pow_succ]; congr 1; omega
        rw [this] at hlt
        exact Nat.div_lt_of_lt_mul (by rw [Nat.mul_comm]; exact hlt))
      simp at this
      omega

theorem numberLoop_ne_nil (fuel : Nat) : ∀ (num : Nat) (acc : List Nat), num < fuel →
    numberLoop fuel num acc ≠ [] := by
  induction fuel with
  | zero => intro num acc h; omega
  | succ f ih =>
    intro num acc h
    unfold numberLoop
    split
    · simp
    · exact ih _ _ (by omega)

theorem natBytes_allDigits (n : Nat) : AllDigits (natBytes n) :=
  numberLoop_allDigits _ _ _ (by intro b hb; cases hb)

theorem natBytes_val (n : Nat) : digitsVal (natBytes n) = n := by
  simpa [natBytes, digitsVal] using numberLoop_val (n + 1) n [] (by omega)

theorem natBytes_ne_nil (n : Nat) : natBytes n ≠ [] :=
  numberLoop_ne_nil _ _ _ (by omega)

theorem natBytes_length (n : Nat) (h : n < 9223372036854775808) :
    (natBytes n).length ≤ 19 := by
  have := numberLoop_length (n + 1) n [] 19 (by omega) (by omega) (by norm_num; omega)
  simpa [natBytes] using this

theorem byteSub48_digit (b : Nat) (h : 48 ≤ b ∧ b ≤ 57) : byteSub48 b = b - 48 := by
  unfold byteSub48
  omega

theorem digitsVal_head_le (b : Nat) (rest : List Nat) :
    (b - 48) * 10 ^ rest.length ≤ digitsVal (b :: rest) := by
  simp [digitsVal]

theorem bytesLoop_digits (ovf : Nat → Int) : ∀ (l : List Nat) (number : Int),
    AllDigits l → l.length ≤ 19 → 0 ≤ number →
    number + (digitsVal l : Int) < 9223372036854775808 →
    bytesLoop ovf l number = number + (digitsVal l : Int) := by
  intro l
  induction l with
  | nil => intro number _ _ _ _; simp [bytesLoop, digitsVal]
  | cons b rest ih =>
    intro number hd hl h0 hlt
    have hb := hd b (List.mem_cons_self _ _)
    have hrest : AllDigits rest := fun x hx => hd x (List.mem_cons_of_mem _ hx)
    simp only [List.length_cons] at hl
    have hp : Pow10Int ovf rest.length = ((10 ^ rest.length : Nat) : Int) := by
      unfold Pow10Int
      rw [if_pos (by omega)]
      push_cast
      rfl
    have hval : (digitsVal (b :: rest) : Int)
        = ((b - 48 : Nat) : Int) * ((10 ^ rest.length : Nat) : Int) + (digitsVal rest : Int) := by
      simp only [digitsVal]
      push_cast
      rfl
    have hterm : (0 : Int) ≤ ((b - 48 : Nat) : Int) * ((10 ^ rest.length : Nat) : Int) := by
      positivity
    have hv0 : (0 : Int) ≤ (digitsVal rest : Int) := by positivity
    unfold bytesLoop
    rw [byteSub48_digit b hb, hp]
    rw [hval] at hlt
    generalize ((b - 48 : Nat) : Int) * ((10 ^ rest.length : Nat) : Int) = t at *
    rw [wrapInt_of_range t (by omega) (by omega)]
    rw [wrapInt_of_range (number + t) (by omega) (by omega)]
    rw [ih (number + t) hrest (by omega) (by omega) (by omega), hval]
    ring

theorem BytesToNumber_natBytes (ovf : Nat → Int) (n : Nat) (h : n < 9223372036854775808) :
    BytesToNumber ovf (natBytes n) = .ok (n : Int) := by
  have hne := natBytes_ne_nil n
  have hd := natBytes_allDigits n
  have hl := natBytes_length n h
  have hv := natBytes_val n
  generalize natBytes n = l at *
  cases l with
  | nil => exact absurd rfl hne
  | cons b rest =>
    have hb := hd b (List.mem_cons_self _ _)
    unfold BytesToNumber
    rw [if_neg (by omega)]
    rw [bytesLoop_digits ovf _ 0 hd hl (le_refl _) (by rw [hv]; omega), hv]
    simp

theorem NumberToBytes_natCast (n : Nat) : NumberToBytes (n : Int) = some (natBytes n) := by
  simp [NumberToBytes, NumberToBytesFuel, natBytes]

theorem NumberToBytes_neg (n : Nat) (h0 : 0 < n) (h : n < 9223372036854775808) :
    NumberToBytes (-(n : Int)) = some (45 :: natBytes n) := by
  have hw : wrapInt (n : Int) = (n : Int) := wrapInt_of_range _ (by omega) (by omega)
  have hneg : -(n : Int) < 0 := by omega
  have hpos : ¬ ((n : Int) < 0) := by omega
  have hmul : -(n : Int) * -1 = (n : Int) := by ring
  unfold NumberToBytes
  rw [NumberToBytesFuel, if_pos hneg, hmul, hw, NumberToBytesFuel, if_neg hpos]
  simp [natBytes]

theorem BytesToNumber_neg_natBytes (ovf : Nat → Int) (n : Nat) (h : n < 9223372036854775808) :
    BytesToNumber ovf (45 :: natBytes n) = .ok (-(n : Int)) := by
  unfold BytesToNumber
  rw [if_pos rfl, BytesToNumber_natBytes ovf n h]
  simp only
  rw [wrapInt_of_range _ (by omega) (by omega)]
  simp

/-- Decoding what the encoder wrote gives the number back, for every `int`
but the most negative one. -/
theorem BytesToNumber_NumberToBytes (ovf : Nat → Int) (n : Int)
    (h1 : -9223372036854775808 < n) (h2 : n < 9223372036854775808) :
    ∃ bs, NumberToBytes n = some bs ∧ BytesToNumber ovf bs = .ok n := by
  rcases Int.lt_or_le n 0 with hn | hn
  · obtain ⟨m, hm⟩ := Int.eq_ofNat_of_zero_le (show 0 ≤ -n by omega)
    have hn' : n = -(m : Int) := by omega
    subst hn'
    exact ⟨_, NumberToBytes_neg m (by omega) (by omega), BytesToNumber_neg_natBytes ovf m (by omega)⟩
  · obtain ⟨m, hm⟩ := Int.eq_ofNat_of_zero_le hn
    subst hm
    exact ⟨_, NumberToBytes_natCast m, BytesToNumber_natBytes ovf m (by omega)⟩

/-- C3. Integer codec round-trip: for every integer `n` with
`-10^9 ≤ n ≤ 10^9`, `NumberToBytes n` returns a byte string and
`BytesToNumber` of that byte string is `n`, whatever the platform does with
out-of-range float conversions. -/
theorem integer_codec_roundtrip (ovf : Nat → Int) (n : Int)
    (hlo : -(10 ^ 9) ≤ n) (hhi : n ≤ 10 ^ 9) :
    ∃ bs, NumberToBytes n = some bs ∧ BytesToNumber ovf bs = .ok n :=
  BytesToNumber_NumberToBytes ovf n (by norm_num at hlo; omega) (by norm_num at hhi; omega)

/-- C3 at `n = -10^9`: the encoding is `-1000000000` and it decodes back. -/
theorem integer_codec_roundtrip_witness :
    (-(10 ^ 9) ≤ (-1000000000 : Int) ∧ (-1000000000 : Int) ≤ 10 ^ 9) ∧
    ∃ bs, NumberToBytes (-1000000000) = some bs ∧
      BytesToNumber (fun _ => 0) bs = .ok (-1000000000) :=
  ⟨by decide, integer_codec_roundtrip (fun _ => 0) (-1000000000) (by decide) (by decide)⟩


/-! ## Sharding -/

theorem IndexByte_of_mem (c : Nat) : ∀ key : List Nat, c ∈ key →
    IndexByte key c = (key.indexOf c : Nat) := by
  intro key
  induction key with
  | nil => intro h; cases h
  | cons x rest ih =>
    intro h
    by_cases hx : x = c
    · subst hx
      simp [IndexByte]
    · have hr : c ∈ rest := by
        rcases List.mem_cons.mp h with h | h
        · exact absurd h.symm hx
        · exact h
      have hne : ¬ (IndexByte rest c < 0) := by rw [ih hr]; omega
      rw [IndexByte, if_neg hx, if_neg hne, ih hr, List.indexOf_cons_ne _ hx]
      push_cast
      rfl

theorem IndexByte_of_not_mem (c : Nat) : ∀ key : List Nat, c ∉ key → IndexByte key c = -1 := by
  intro key
  induction key with
  | nil => intro _; rfl
  | cons x rest ih =>
    intro h
    have hx : x ≠ c := fun e => h (by simp [e])
    have hr : c ∉ rest := fun e => h (List.mem_cons_of_mem _ e)
    rw [IndexByte, if_neg hx, ih hr]
    simp

theorem take_drop_eq_map_range (key : List Nat) (L R : Nat) (hR : R ≤ key.length) :
    (key.take R).drop L = (List.range (R - L)).map (fun i => key.getD (L + i) 0) := by
  apply List.ext_getElem
  · simp
    omega
  · intro i h1 h2
    simp at h1 h2
    simp only [List.getElem_drop, List.getElem_take, List.getElem_map, List.getElem_range]
    rw [List.getD_eq_getElem _ _ (by omega)]

theorem shardKey_eq_specShardKey (key : List Nat) :
    shardKey (NewHashTag 123 125) key = specShardKey key := by
  unfold shardKey specShardKey firstIndex NewHashTag
  simp only
  by_cases hl : 123 ∈ key
  · by_cases hr : 125 ∈ key
    · rw [IndexByte_of_mem _ _ hl, IndexByte_of_mem _ _ hr, if_pos hl, if_pos hr]
      simp only
      by_cases hlt : key.indexOf 125 > key.indexOf 123 + 1
      · have hR : key.indexOf 125 ≤ key.length := List.indexOf_le_length
        rw [if_pos hlt, if_pos (by constructor <;> omega)]
        have e1 : ((key.indexOf 125 : Nat) : Int).toNat = key.indexOf 125 := by simp
        have e2 : (((key.indexOf 123 : Nat) : Int) + 1).toNat = key.indexOf 123 + 1 := by omega
        rw [e1, e2]
        exact take_drop_eq_map_range key _ _ hR
      · rw [if_neg hlt, if_neg (by omega)]
    · rw [IndexByte_of_mem _ _ hl, IndexByte_of_not_mem _ _ hr, if_pos hl, if_neg hr]
      simp only
      rw [if_neg (by omega)]
  · rw [IndexByte_of_not_mem _ _ hl, if_neg hl]
    simp only
    rw [if_neg (by omega)]

/-- C7. Hash-tag extraction rule: for every key, the shard key computed by
`acquireSvcConn` with the delimiters `{` and `}` is the one of the rule of
the specification (`L` the index of the first `{`, `R` the index of the first
`}`, bytes `L+1 .. R-1` when `R > L+1`, the whole key otherwise); and
`foo{bar}baz` gives `bar`, `nodelim` gives `nodelim`, `{}` gives `{}`. -/
theorem hashtag_extraction_rule (key : List Nat) :
    shardKey (NewHashTag 123 125) key = specShardKey key ∧
    shardKey (NewHashTag 123 125) (bytesOf "foo\x7bbar\x7dbaz") = bytesOf "bar" ∧
    shardKey (NewHashTag 123 125) (bytesOf "nodelim") = bytesOf "nodelim" ∧
    shardKey (NewHashTag 123 125) (bytesOf "\x7b\x7d") = bytesOf "\x7b\x7d" :=
  ⟨shardKey_eq_specShardKey key, by decide, by decide, by decide⟩

/-- C8. On the key `a}b{c}d` the Redis-Cluster rule of the specification
gives the tag `c`, and the code gives the whole key: the first `}` is
searched from the start of the key, not from the `{`. -/
theorem hashtag_right_delimiter_before_left :
    specHashTag (bytesOf "a\x7db\x7bc\x7dd") = bytesOf "c" ∧
    shardKey (NewHashTag 123 125) (bytesOf "a\x7db\x7bc\x7dd") = bytesOf "a\x7db\x7bc\x7dd" ∧
    shardKey (NewHashTag 123 125) (bytesOf "a\x7db\x7bc\x7dd") ≠ bytesOf "c" :=
  ⟨by decide, by decide, by decide⟩

/-- C5. Routing index: with `K ≥ 1` backend names, `acquireSvcConn` looks up
the connection of `clusterNames[i]`, where `i` is the sum of the bytes of
the MD5 of the shard key of parameter 0 modulo `K` when the command has a
parameter and `0` when it has none; `i < K`, so the index is in range. -/
theorem routing_index_in_range (md5Sum : List Nat → List Nat) (p : Proxy) (cmd : Command)
    (hK : 1 ≤ p.clusterNames.length) :
    ∃ i name, i < p.clusterNames.length ∧
      i = (match cmd.Params with
           | [] => 0
           | param0 :: _ => (md5Sum (shardKey p.ht param0)).sum % p.clusterNames.length) ∧
      routeIndex md5Sum p.ht p.clusterNames.length cmd = .ok i ∧
      p.clusterNames.get? i = some name ∧
      acquireSvcConn md5Sum p cmd =
        (match p.clusters.lookup name with
         | some conn => .ok conn
         | none => .error (.error "acquire redis conn failure")) := by
  have hK0 : p.clusterNames.length ≠ 0 := by omega
  cases hP : cmd.Params with
  | nil =>
    have hlt : 0 < p.clusterNames.length := by omega
    refine ⟨0, p.clusterNames.get ⟨0, hlt⟩, hlt, rfl, ?_, List.get?_eq_get hlt, ?_⟩
    · simp [routeIndex, hP]
    · simp only [acquireSvcConn, routeIndex, hP, List.get?_eq_get hlt]
  | cons param0 rest =>
    have hlt : (md5Sum (shardKey p.ht param0)).sum % p.clusterNames.length
        < p.clusterNames.length := Nat.mod_lt _ (by omega)
    refine ⟨_, p.clusterNames.get ⟨_, hlt⟩, hlt, rfl, ?_, List.get?_eq_get hlt, ?_⟩
    · simp [routeIndex, hP, hK0]
    · simp only [acquireSvcConn, routeIndex, hP, if_neg hK0, List.get?_eq_get hlt]

/-- C5 on the command `GET foo` with two backends `A` and `B` and a digest
whose bytes sum to 3: the index is 1 and the connection of `B` is returned. -/
theorem routing_index_in_range_witness :
    1 ≤ ([("A", Conn.mk "A"), ("B", Conn.mk "B")].map Prod.fst).length ∧
    ∃ i name, i < 2 ∧ i = 3 % 2 ∧
      routeIndex (fun _ => [1, 2]) (NewHashTag 123 125) 2 (GET (bytesOf "foo")) = .ok i ∧
      ["A", "B"].get? i = some name ∧
      acquireSvcConn (fun _ => [1, 2])
        { clusters := [("A", Conn.mk "A"), ("B", Conn.mk "B")], clusterNames := ["A", "B"],
          ht := NewHashTag 123 125 } (GET (bytesOf "foo")) =
        (match [("A", Conn.mk "A"), ("B", Conn.mk "B")].lookup name with
         | some conn => .ok conn
         | none => .error (.error "acquire redis conn failure")) :=
  ⟨by decide,
   routing_index_in_range (fun _ => [1, 2])
    { clusters := [("A", Conn.mk "A"), ("B", Conn.mk "B")], clusterNames := ["A", "B"],
      ht := NewHashTag 123 125 } (GET (bytesOf "foo")) (by decide)⟩

/-- Routing reads a command only through the shard key that lines 172-177
take from its first parameter: two commands with the same shard key are routed
to the same index and to the same backend connection, whatever their names,
the bytes of the key outside the shard key and their other parameters. -/
theorem routing_by_tag_alone (md5Sum : List Nat → List Nat) (p : Proxy)
    (name1 name2 key1 key2 : List Nat) (rest1 rest2 : List (List Nat))
    (htag : shardKey p.ht key1 = shardKey p.ht key2) :
    routeIndex md5Sum p.ht p.clusterNames.length { Name := name1, Params := key1 :: rest1 } =
      routeIndex md5Sum p.ht p.clusterNames.length { Name := name2, Params := key2 :: rest2 } ∧
    acquireSvcConn md5Sum p { Name := name1, Params := key1 :: rest1 } =
      acquireSvcConn md5Sum p { Name := name2, Params := key2 :: rest2 } := by
  have h : routeIndex md5Sum p.ht p.clusterNames.length { Name := name1, Params := key1 :: rest1 } =
      routeIndex md5Sum p.ht p.clusterNames.length { Name := name2, Params := key2 :: rest2 } := by
    simp only [routeIndex, htag]
  refine ⟨h, ?_⟩
  unfold acquireSvcConn
  rw [h]

/-- On `GET {u1}:cart` and `SET {u1}:name x` both keys have the shard key
`u1`, and both commands get the same index and the same backend. -/
theorem routing_by_tag_alone_witness :
    shardKey exampleProxy.ht (bytesOf "\x7bu1\x7d:cart") = bytesOf "u1" ∧
    shardKey exampleProxy.ht (bytesOf "\x7bu1\x7d:cart")
      = shardKey exampleProxy.ht (bytesOf "\x7bu1\x7d:name") ∧
    (routeIndex exampleDigest exampleProxy.ht exampleProxy.clusterNames.length
        (GET (bytesOf "\x7bu1\x7d:cart")) =
      routeIndex exampleDigest exampleProxy.ht exampleProxy.clusterNames.length
        (SET (bytesOf "\x7bu1\x7d:name") (bytesOf "x")) ∧
    acquireSvcConn exampleDigest exampleProxy (GET (bytesOf "\x7bu1\x7d:cart")) =
      acquireSvcConn exampleDigest exampleProxy (SET (bytesOf "\x7bu1\x7d:name") (bytesOf "x"))) :=
  ⟨by decide, by decide,
   routing_by_tag_alone exampleDigest exampleProxy [71, 69, 84] [83, 69, 84]
    (bytesOf "\x7bu1\x7d:cart") (bytesOf "\x7bu1\x7d:name") [] [bytesOf "x"] (by decide)⟩

set_option maxRecDepth 1000000 in
/-- The digest `md5.Sum` on the test suite of RFC 1321: the empty string,
`abc`, `message digest`, and the eighty digits that fill two blocks. -/
theorem md5_Sum_test_suite :
    md5.Sum (bytesOf "")
      = [212, 29, 140, 217, 143, 0, 178, 4, 233, 128, 9, 152, 236, 248, 66, 126] ∧
    md5.Sum (bytesOf "abc")
      = [144, 1, 80, 152, 60, 210, 79, 176, 214, 150, 63, 125, 40, 225, 127, 114] ∧
    md5.Sum (bytesOf "message digest")
      = [249, 107, 105, 125, 124, 183, 147, 141, 82, 90, 47, 49, 170, 241, 97, 208] ∧
    md5.Sum (bytesOf
        "12345678901234567890123456789012345678901234567890123456789012345678901234567890")
      = [87, 237, 244, 162, 43, 227, 201, 85, 172, 73, 218, 46, 33, 7, 182, 122] := by
  decide

set_option maxRecDepth 1000000 in
/-- C6. Two commands whose keys carry the same hash tag `u1` go to different
backends.  With the backends `A`, `B`: the keys `{u1}:cart` and `}{u1}:name`
both have the tag `u1` (the bytes between the first `{` and the next `}`), as
has `{u1}:name`.  `GET {u1}:cart` and `SET {u1}:name x` hash `u1` and get
index 1, backend `B`; for `}{u1}:name` the code finds the `}` at position 0,
before the `{`, hashes the whole key and routes `SET }{u1}:name x` to index 0,
backend `A`. -/
theorem same_tag_routed_apart :
    specHashTag (bytesOf "\x7bu1\x7d:cart") = bytesOf "u1" ∧
    specHashTag (bytesOf "\x7d\x7bu1\x7d:name") = bytesOf "u1" ∧
    specHashTag (bytesOf "\x7bu1\x7d:name") = bytesOf "u1" ∧
    shardKey exampleProxy.ht (bytesOf "\x7bu1\x7d:cart") = bytesOf "u1" ∧
    shardKey exampleProxy.ht (bytesOf "\x7d\x7bu1\x7d:name") = bytesOf "\x7d\x7bu1\x7d:name" ∧
    (md5.Sum (bytesOf "u1")).sum = 2089 ∧
    (md5.Sum (bytesOf "\x7d\x7bu1\x7d:name")).sum = 1644 ∧
    routeIndex md5.Sum exampleProxy.ht exampleProxy.clusterNames.length
        (GET (bytesOf "\x7bu1\x7d:cart")) = .ok 1 ∧
    routeIndex md5.Sum exampleProxy.ht exampleProxy.clusterNames.length
        (SET (bytesOf "\x7bu1\x7d:name") (bytesOf "x")) = .ok 1 ∧
    routeIndex md5.Sum exampleProxy.ht exampleProxy.clusterNames.length
        (SET (bytesOf "\x7d\x7bu1\x7d:name") (bytesOf "x")) = .ok 0 ∧
    acquireSvcConn md5.Sum exampleProxy (GET (bytesOf "\x7bu1\x7d:cart")) = .ok (Conn.mk "B") ∧
    acquireSvcConn md5.Sum exampleProxy (SET (bytesOf "\x7d\x7bu1\x7d:name") (bytesOf "x"))
      = .ok (Conn.mk "A") := by
  decide

/-! ## Reading lines and blocks -/

theorem splitLine_append (rest : List Nat) : ∀ xs : List Nat, 10 ∉ xs →
    splitLine (xs ++ 10 :: rest) = some (xs ++ [10], rest) := by
  intro xs
  induction xs with
  | nil => intro _; simp [splitLine]
  | cons x xs ih =>
    intro h
    have hx : x ≠ 10 := fun e => h (by simp [e])
    have hxs : 10 ∉ xs := fun e => h (List.mem_cons_of_mem _ e)
    simp [splitLine, hx, ih hxs]

theorem ReadBytes_line (xs rest : List Nat) (h : 10 ∉ xs) :
    ReadBytes (xs ++ 13 :: 10 :: rest) = (.ok (xs ++ [13, 10]), rest) := by
  have h13 : 10 ∉ xs ++ [13] := by simp [h]
  have := splitLine_append rest (xs ++ [13]) h13
  simp only [List.append_assoc, List.singleton_append] at this
  simp [ReadBytes, this]

theorem ReadFull_append (a rest : List Nat) :
    ReadFull (a ++ rest) a.length = (.ok a, rest) := by
  simp [ReadFull]

theorem natBytes_no_lf (n : Nat) : 10 ∉ natBytes n := by
  intro h
  have := natBytes_allDigits n 10 h
  omega

theorem natBytes_length_pos (n : Nat) : 1 ≤ (natBytes n).length := by
  have := natBytes_ne_nil n
  cases h : natBytes n with
  | nil => exact absurd h this
  | cons _ _ => simp

theorem take_length_sub_two (xs : List Nat) (a b : Nat) :
    (xs ++ [a, b]).take ((xs ++ [a, b]).length - 2) = xs := by
  simp

/-! ## The command codec -/

theorem Command.ToRESPLoop_eq : ∀ params : List (List Nat),
    Command.ToRESPLoop params = some (encodeArgs params) := by
  intro params
  induction params with
  | nil => rfl
  | cons p ps ih => simp [Command.ToRESPLoop, encodeArgs, NumberToBytes_natCast, ih]

theorem Command.ToRESP_eq (cmd : Command)
    (hcount : 1 + cmd.Params.length < 9223372036854775808) :
    cmd.ToRESP = some (encodeCommand cmd) := by
  have hw : wrapInt (1 + (cmd.Params.length : Int)) = ((1 + cmd.Params.length : Nat) : Int) := by
    rw [wrapInt_of_range _ (by omega) (by omega)]
    omega
  unfold Command.ToRESP
  rw [hw, NumberToBytes_natCast, Command.ToRESPLoop_eq]
  simp only [Option.some_bind, Option.map_some', encodeCommand]

theorem parseCommandArg_encoded (ovf : Nat → Int) (param rest : List Nat)
    (hlen : param.length + 2 ≤ maxAlloc) :
    parseCommandArg ovf (36 :: natBytes param.length ++ byteCRLF ++ param ++ byteCRLF ++ rest)
      = (.ok param, rest) := by
  have hline : ReadBytes (36 :: natBytes param.length ++ byteCRLF ++ param ++ byteCRLF ++ rest)
      = (.ok ((36 :: natBytes param.length) ++ [13, 10]), param ++ byteCRLF ++ rest) := by
    have := ReadBytes_line (36 :: natBytes param.length) (param ++ byteCRLF ++ rest)
      (by simp [natBytes_no_lf])
    simpa [byteCRLF] using this
  have hpos := natBytes_length_pos param.length
  have hm : maxAlloc = 281474976710656 := rfl
  have hw : wrapInt ((param.length : Int) + 2) = ((param.length + 2 : Nat) : Int) := by
    rw [wrapInt_of_range _ (by omega) (by omega)]
    omega
  have hfull : ReadFull (param ++ byteCRLF ++ rest) (param.length + 2)
      = (.ok (param ++ byteCRLF), rest) := by
    have := ReadFull_append (param ++ byteCRLF) rest
    simpa [byteCRLF] using this
  unfold parseCommandArg
  rw [hline]
  simp only [List.cons_append, ne_eq, not_true_eq_false, if_false]
  rw [if_neg (by simp; omega)]
  have htake : (List.take ((36 :: (natBytes param.length ++ [13, 10])).length - 2)
      (36 :: (natBytes param.length ++ [13, 10]))).drop 1 = natBytes param.length := by
    have := take_length_sub_two (36 :: natBytes param.length) 13 10
    simp only [List.cons_append] at this
    rw [this]
    rfl
  rw [htake, BytesToNumber_natBytes ovf _ (by omega)]
  simp only
  rw [hw, if_neg (by omega)]
  simp only [Int.toNat_ofNat]
  rw [hfull]
  simp [byteCRLF]

theorem unpackLoop_encoded (ovf : Nat → Int) (rest : List Nat) : ∀ (params args : List (List Nat)),
    (∀ p ∈ params, p.length + 2 ≤ maxAlloc) →
    unpackLoop ovf params.length (encodeArgs params ++ rest) args = (.ok (args ++ params), rest) := by
  intro params
  induction params with
  | nil => intro args _; simp [unpackLoop, encodeArgs]
  | cons p ps ih =>
    intro args h
    have hp := h p (List.mem_cons_self _ _)
    have hps : ∀ q ∈ ps, q.length + 2 ≤ maxAlloc :=
      fun q hq => h q (List.mem_cons_of_mem _ hq)
    have harg := parseCommandArg_encoded ovf p (encodeArgs ps ++ rest) hp
    simp only [List.length_cons, unpackLoop, encodeArgs]
    simp only [List.append_assoc, List.cons_append] at harg ⊢
    rw [harg]
    simp only
    rw [ih (args ++ [p]) hps]
    simp

/-- The session's decoder on the bytes of a command followed by any bytes:
the command comes back and the reader stands right after it. -/
theorem IOLoopReadCommand_encoded (ovf : Nat → Int) (cmd : Command) (rest : List Nat)
    (hcount : 1 + cmd.Params.length < 9223372036854775808)
    (hlen : ∀ p ∈ cmd.Name :: cmd.Params, p.length + 2 ≤ maxAlloc) :
    IOLoopReadCommand ovf (encodeCommand cmd ++ rest) = (.ok cmd, rest) := by
  have hline : ReadBytes (encodeCommand cmd ++ rest)
      = (.ok ((42 :: natBytes (1 + cmd.Params.length)) ++ [13, 10]),
          encodeArgs (cmd.Name :: cmd.Params) ++ rest) := by
    have := ReadBytes_line (42 :: natBytes (1 + cmd.Params.length))
      (encodeArgs (cmd.Name :: cmd.Params) ++ rest) (by simp [natBytes_no_lf])
    simpa [encodeCommand, byteCRLF] using this
  have hpos := natBytes_length_pos (1 + cmd.Params.length)
  unfold IOLoopReadCommand
  rw [hline]
  simp only
  rw [if_neg (by simp; omega), take_length_sub_two]
  unfold UnpackCommand
  rw [if_neg (by simp [bytesPING])]
  simp only
  rw [BytesToNumber_natBytes ovf _ hcount]
  simp only
  rw [if_neg (by omega)]
  have hn : ((1 + cmd.Params.length : Nat) : Int).toNat = (cmd.Name :: cmd.Params).length := by
    simp [Nat.add_comm]
  rw [hn, unpackLoop_encoded ovf rest _ [] hlen]
  simp [RawComand]

/-- C2. Command round-trip: for every command (any name, any parameters,
empty ones and ones with CR or LF included) whose sizes are within what a
program can hold (a count that fits an `int`; a name and parameters that, with
their `\r\n`, are no larger than `maxAlloc`), `Command.ToRESP` returns a byte
string on which the session's decoder (first line read, then `UnpackCommand`)
returns the same command without error and with every byte consumed. -/
theorem command_roundtrip (ovf : Nat → Int) (cmd : Command)
    (hcount : 1 + cmd.Params.length < 9223372036854775808)
    (hlen : ∀ p ∈ cmd.Name :: cmd.Params, p.length + 2 ≤ maxAlloc) :
    ∃ bs, cmd.ToRESP = some bs ∧ IOLoopReadCommand ovf bs = (.ok cmd, []) := by
  refine ⟨encodeCommand cmd, Command.ToRESP_eq cmd hcount, ?_⟩
  have := IOLoopReadCommand_encoded ovf cmd [] hcount hlen
  simpa using this

/-- C2 on `SET k ""` followed by a parameter holding `\r\n`: an empty
parameter and a parameter with CR and LF come back unchanged. -/
theorem command_roundtrip_witness :
    ∃ bs, (Command.mk [83, 69, 84] [[107], [], [13, 10]]).ToRESP = some bs ∧
      IOLoopReadCommand ovfAmd64 bs = (.ok (Command.mk [83, 69, 84] [[107], [], [13, 10]]), []) :=
  command_roundtrip ovfAmd64 (Command.mk [83, 69, 84] [[107], [], [13, 10]]) (by decide)
    (by decide)

/-! ## The request decoder -/

unseal wrapInt in
/-- C9. A first line that does not begin with `*` is decoded all the same:
on `+1\r\n$4\r\nPING\r\n` the session's decoder returns the command `PING`
without error, and so does `UnpackCommand` on the lines `+1` and `X2`.  The
first byte of the line is skipped, never tested. -/
theorem request_first_byte_unchecked :
    IOLoopReadCommand ovfAmd64 (bytesOf "+1\r\n$4\r\nPING\r\n") = (.ok PING, []) ∧
    UnpackCommand ovfAmd64 (bytesOf "$4\r\nPING\r\n") (bytesOf "+1") = (.ok PING, []) ∧
    UnpackCommand ovfAmd64 (bytesOf "$3\r\nGET\r\n$1\r\nk\r\n") (bytesOf "X2")
      = (.ok (GET (bytesOf "k")), []) := by
  decide

/-- C10. PING special case: the bare request `PING\r\n` and the array form
`*1\r\n$4\r\nPING\r\n` decode to the same command, name `PING` without
parameters, and the reader is left at the first byte after the request. -/
theorem ping_special_case (ovf : Nat → Int) (rest : List Nat) :
    IOLoopReadCommand ovf (bytesOf "PING\r\n" ++ rest) = (.ok PING, rest) ∧
    IOLoopReadCommand ovf (bytesOf "*1\r\n$4\r\nPING\r\n" ++ rest) = (.ok PING, rest) ∧
    PING = { Name := bytesOf "PING", Params := [] } := by
  refine ⟨rfl, ?_, rfl⟩
  have h := IOLoopReadCommand_encoded ovf PING rest (by decide) (by decide)
  have e : encodeCommand PING = bytesOf "*1\r\n$4\r\nPING\r\n" := by decide
  rw [e] at h
  exact h

/-! ## The response codec -/

mutual
/-- Induction on a `Resp`: the elements of an array come with the property. -/
theorem Resp.ind {P : Resp → Prop} (hs : ∀ s, P (.SimpleString s))
    (he : ∀ t m, P (.Error t m)) (hi : ∀ i, P (.Integer i)) (hb : ∀ b, P (.BulkString b))
    (hn : P (.Array none)) (ha : ∀ l, (∀ c ∈ l, P c) → P (.Array (some l))) : ∀ v, P v
  | .SimpleString s => hs s
  | .Error t m => he t m
  | .Integer i => hi i
  | .BulkString b => hb b
  | .Array none => hn
  | .Array (some l) => ha l (Resp.ind_list hs he hi hb hn ha l)
theorem Resp.ind_list {P : Resp → Prop} (hs : ∀ s, P (.SimpleString s))
    (he : ∀ t m, P (.Error t m)) (hi : ∀ i, P (.Integer i)) (hb : ∀ b, P (.BulkString b))
    (hn : P (.Array none)) (ha : ∀ l, (∀ c ∈ l, P c) → P (.Array (some l))) :
    ∀ l : List Resp, ∀ c ∈ l, P c
  | [] => fun c hc => by cases hc
  | sub :: rest => fun c hc => by
    rcases List.mem_cons.mp hc with h | h
    · subst h
      exact Resp.ind hs he hi hb hn ha c
    · exact Resp.ind_list hs he hi hb hn ha rest c h
end

theorem NumberToBytes_neg_one : NumberToBytes (-1) = some [45, 49] := by
  have := NumberToBytes_neg 1 (by omega) (by omega)
  simpa [natBytes, numberLoop] using this

theorem natBytes_zero : natBytes 0 = [48] := by
  simp [natBytes, numberLoop]

theorem ToRESPLoop_frames : ∀ l : List Resp, l ≠ [] →
    (∀ c ∈ l, c.ToRESP = some (frame c) ∧ ∃ b, frame c = b ++ [13, 10]) →
    ∃ b, frames l = b ++ [13, 10] ∧ Resp.ToRESPLoop l = some b := by
  intro l
  induction l with
  | nil => intro h; exact absurd rfl h
  | cons c cs ih =>
    intro _ hall
    obtain ⟨hc, b, hb⟩ := hall c (List.mem_cons_self _ _)
    cases cs with
    | nil =>
      refine ⟨b, by simp [frames, hb], ?_⟩
      simp [Resp.ToRESPLoop, hc, hb]
    | cons d ds =>
      obtain ⟨b2, hb2, hl2⟩ := ih (by simp) (fun x hx => hall x (List.mem_cons_of_mem _ hx))
      refine ⟨frame c ++ b2, ?_, ?_⟩
      · rw [frames, hb2]
        simp
      · simp [Resp.ToRESPLoop, hc, hl2]

/-- `Resp.ToRESP` always returns, and what it returns is `frame`, which ends
in `\r\n`. -/
theorem ToRESP_eq_frame : ∀ v : Resp,
    v.ToRESP = some (frame v) ∧ ∃ b, frame v = b ++ [13, 10] := by
  apply Resp.ind
  · intro s
    exact ⟨by simp [Resp.ToRESP, frame], ⟨43 :: s, by simp [frame, byteCRLF]⟩⟩
  · intro t m
    exact ⟨by simp [Resp.ToRESP, frame], ⟨45 :: t ++ [32] ++ m, by simp [frame, byteCRLF]⟩⟩
  · intro i
    exact ⟨by simp [Resp.ToRESP, frame], ⟨58 :: i, by simp [frame, byteCRLF]⟩⟩
  · intro b
    cases b with
    | none =>
      exact ⟨by simp [Resp.ToRESP, frame, NumberToBytes_neg_one, byteCRLF],
        ⟨[36, 45, 49], by simp [frame]⟩⟩
    | some b =>
      exact ⟨by simp [Resp.ToRESP, frame, NumberToBytes_natCast],
        ⟨36 :: natBytes b.length ++ byteCRLF ++ b, by simp [frame, byteCRLF]⟩⟩
  · exact ⟨by simp [Resp.ToRESP, frame, NumberToBytes_neg_one, byteCRLF],
      ⟨[42, 45, 49], by simp [frame]⟩⟩
  · intro l ih
    cases l with
    | nil =>
      have h0 : NumberToBytes 0 = some [48] := by
        have := NumberToBytes_natCast 0
        simpa [natBytes_zero] using this
      exact ⟨by simp [Resp.ToRESP, frame, h0, byteCRLF], ⟨[42, 48], by simp [frame]⟩⟩
    | cons c cs =>
      obtain ⟨b, hb, hl⟩ := ToRESPLoop_frames (c :: cs) (by simp) ih
      have hn := NumberToBytes_natCast (c :: cs).length
      refine ⟨?_, ⟨42 :: natBytes (c :: cs).length ++ byteCRLF ++ b, ?_⟩⟩
      · rw [Resp.ToRESP, hn, hl, frame, hb]
        simp [byteCRLF]
      · rw [frame, hb]
        simp

theorem splitSpace_ne_nil : ∀ m : List Nat, splitSpace m ≠ [] := by
  intro m
  induction m with
  | nil => simp [splitSpace]
  | cons b rest ih =>
    unfold splitSpace
    split
    · simp
    · cases h : splitSpace rest with
      | nil => exact absurd h ih
      | cons f fs => simp

theorem joinSpace_splitSpace : ∀ m : List Nat, joinSpace (splitSpace m) = m := by
  intro m
  induction m with
  | nil => simp [splitSpace, joinSpace]
  | cons b rest ih =>
    unfold splitSpace
    split
    · rename_i hb
      cases h : splitSpace rest with
      | nil => exact absurd h (splitSpace_ne_nil rest)
      | cons f fs =>
        rw [h] at ih
        simp [joinSpace, ih, hb]
    · cases h : splitSpace rest with
      | nil => exact absurd h (splitSpace_ne_nil rest)
      | cons f fs =>
        rw [h] at ih
        cases fs with
        | nil =>
          simp only [joinSpace] at ih ⊢
          rw [ih]
        | cons g gs =>
          simp only [joinSpace] at ih ⊢
          rw [← ih]
          simp

theorem splitSpace_append_space (m : List Nat) : ∀ t : List Nat, 32 ∉ t →
    splitSpace (t ++ 32 :: m) = t :: splitSpace m := by
  intro t
  induction t with
  | nil => intro _; simp [splitSpace]
  | cons b rest ih =>
    intro h
    have hb : b ≠ 32 := fun e => h (by simp [e])
    have hr : 32 ∉ rest := fun e => h (List.mem_cons_of_mem _ e)
    simp [splitSpace, hb, ih hr]

theorem toError_type_message (br t m : List Nat) (h : 32 ∉ t) :
    toError br (t ++ 32 :: m) = (.ok (.Error t m), br) := by
  unfold toError
  rw [splitSpace_append_space m t h]
  cases hs : splitSpace m with
  | nil => exact absurd hs (splitSpace_ne_nil m)
  | cons f fs =>
    simp only
    rw [← hs, joinSpace_splitSpace]

theorem BytesToNumber_neg_one (ovf : Nat → Int) : BytesToNumber ovf [45, 49] = .ok (-1) := by
  have := BytesToNumber_neg_natBytes ovf 1 (by omega)
  simpa [natBytes, numberLoop] using this

theorem BytesToNumber_zero (ovf : Nat → Int) : BytesToNumber ovf [48] = .ok 0 := by
  have := BytesToNumber_natBytes ovf 0 (by omega)
  simpa [natBytes_zero] using this

theorem foldl_appendResp_some : ∀ (l a : List Resp),
    l.foldl appendResp (some a) = some (a ++ l) := by
  intro l
  induction l with
  | nil => intro a; simp
  | cons c cs ih => intro a; simp [appendResp, ih]

theorem foldl_appendResp_none (c : Resp) (cs : List Resp) :
    (c :: cs).foldl appendResp none = some (c :: cs) := by
  simp [appendResp, foldl_appendResp_some]

theorem depth_lt_depthList : ∀ (l : List Resp) (c : Resp), c ∈ l →
    c.depth + 1 ≤ Resp.depthList l := by
  intro l
  induction l with
  | nil => intro c h; cases h
  | cons x xs ih =>
    intro c h
    rw [Resp.depthList]
    rcases List.mem_cons.mp h with h | h
    · subst h
      exact le_max_left _ _
    · exact le_trans (ih c h) (le_max_right _ _)

theorem canonicalList_iff : ∀ l : List Resp,
    Resp.CanonicalList l ↔ ∀ c ∈ l, c.Canonical := by
  intro l
  induction l with
  | nil => simp [Resp.CanonicalList]
  | cons x xs ih => simp [Resp.CanonicalList, ih]

/-- One round of the loop of `toArray` on a frame that `readFrame` reads. -/
theorem toArrayLoop_step (parse : List Nat → List Nat → Except Err Resp × List Nat)
    (n : Nat) (br br2 : List Nat) (arr : Option (List Resp)) (c : Resp)
    (h : readFrame parse br = (.ok c, br2)) :
    toArrayLoop parse (n + 1) br arr = toArrayLoop parse n br2 (appendResp arr c) := by
  unfold readFrame at h
  rw [toArrayLoop]
  cases hr : ReadBytes br with
  | mk r br1 =>
    rw [hr] at h
    cases r with
    | error e => simp at h
    | ok buf =>
      simp only at h ⊢
      by_cases hlen : buf.length < 4
      · rw [if_pos hlen] at h
        simp at h
      · rw [if_neg hlen] at h
        rw [if_neg hlen, h]

/-- The loop of `toArray` on the frames of a list of values that `readFrame`
reads back: all of them are gathered, in order. -/
theorem toArrayLoop_frames (parse : List Nat → List Nat → Except Err Resp × List Nat)
    (rest : List Nat) : ∀ (l : List Resp) (arr : Option (List Resp)),
    (∀ c ∈ l, ∀ rest1, readFrame parse (frame c ++ rest1) = (.ok c, rest1)) →
    toArrayLoop parse l.length (frames l ++ rest) arr
      = (.ok (.Array (l.foldl appendResp arr)), rest) := by
  intro l
  induction l with
  | nil => intro arr _; simp [toArrayLoop, frames]
  | cons c cs ih =>
    intro arr h
    have hc := h c (List.mem_cons_self _ _) (frames cs ++ rest)
    have hstep := toArrayLoop_step parse cs.length _ _ arr c hc
    simp only [List.length_cons, frames, List.append_assoc, List.foldl_cons]
    rw [hstep]
    exact ih (appendResp arr c) (fun x hx r => h x (List.mem_cons_of_mem _ hx) r)

theorem ParseResp_simpleString (ovf : Nat → Int) (fuel : Nat) (br data : List Nat) :
    ParseResp ovf (fuel + 1) br (43 :: data) = (.ok (.SimpleString data), br) := by
  simp [ParseResp, identify, toSimpleString, RespTypeSimpleString]

theorem ParseResp_error (ovf : Nat → Int) (fuel : Nat) (br data : List Nat) :
    ParseResp ovf (fuel + 1) br (45 :: data) = toError br data := by
  simp [ParseResp, identify, RespTypeSimpleString, RespTypeError]

theorem ParseResp_integer (ovf : Nat → Int) (fuel : Nat) (br data : List Nat) :
    ParseResp ovf (fuel + 1) br (58 :: data) = (.ok (.Integer data), br) := by
  simp [ParseResp, identify, toInteger, RespTypeSimpleString, RespTypeError, RespTypeInteger]

theorem ParseResp_bulkString (ovf : Nat → Int) (fuel : Nat) (br data : List Nat) :
    ParseResp ovf (fuel + 1) br (36 :: data) = toBulkString ovf br data := by
  simp [ParseResp, identify, RespTypeSimpleString, RespTypeError, RespTypeInteger,
    RespTypeBulkString]

theorem ParseResp_array (ovf : Nat → Int) (fuel : Nat) (br data : List Nat) :
    ParseResp ovf (fuel + 1) br (42 :: data) = toArray ovf (ParseResp ovf fuel) br data := by
  simp [ParseResp, identify, RespTypeSimpleString, RespTypeError, RespTypeInteger,
    RespTypeBulkString, RespTypeArray]

theorem toBulkString_null (ovf : Nat → Int) (br : List Nat) :
    toBulkString ovf br [45, 49] = (.ok (.BulkString none), br) := by
  unfold toBulkString
  rw [BytesToNumber_neg_one]
  rfl

theorem toBulkString_payload (ovf : Nat → Int) (Bulk rest : List Nat) (hne : Bulk ≠ [])
    (hlen : Bulk.length + 2 ≤ maxAlloc) :
    toBulkString ovf (Bulk ++ byteCRLF ++ rest) (natBytes Bulk.length)
      = (.ok (.BulkString (some Bulk)), rest) := by
  have hpos : 0 < Bulk.length := List.length_pos.mpr hne
  have hm : maxAlloc = 281474976710656 := rfl
  have hw : wrapInt ((Bulk.length : Int) + 2) = ((Bulk.length + 2 : Nat) : Int) := by
    rw [wrapInt_of_range _ (by omega) (by omega)]
    omega
  have hfull : ReadFull (Bulk ++ byteCRLF ++ rest) (Bulk.length + 2)
      = (.ok (Bulk ++ byteCRLF), rest) := by
    have := ReadFull_append (Bulk ++ byteCRLF) rest
    simpa [byteCRLF] using this
  unfold toBulkString
  rw [BytesToNumber_natBytes ovf _ (by omega)]
  simp only
  rw [if_neg (by omega), if_neg (by omega), hw, if_neg (by omega)]
  simp only [Int.toNat_ofNat]
  rw [hfull]
  simp [byteCRLF]

theorem toArray_null (ovf : Nat → Int)
    (parse : List Nat → List Nat → Except Err Resp × List Nat) (br : List Nat) :
    toArray ovf parse br [45, 49] = (.ok (.Array none), br) := by
  unfold toArray
  rw [BytesToNumber_neg_one]
  simp [toArrayLoop]

theorem toArray_empty (ovf : Nat → Int)
    (parse : List Nat → List Nat → Except Err Resp × List Nat) (br : List Nat) :
    toArray ovf parse br [48] = (.ok (.Array (some [])), br) := by
  unfold toArray
  rw [BytesToNumber_zero]
  simp [toArrayLoop]

theorem toArray_count (ovf : Nat → Int)
    (parse : List Nat → List Nat → Except Err Resp × List Nat) (br : List Nat) (n : Nat)
    (h0 : 0 < n) (hn : n < 9223372036854775808) :
    toArray ovf parse br (natBytes n) = toArrayLoop parse n br none := by
  unfold toArray
  rw [BytesToNumber_natBytes ovf n hn]
  simp only
  rw [if_neg (by omega), if_neg (by omega)]
  simp

theorem depthList_le_frames : ∀ l : List Resp,
    (∀ c ∈ l, c.depth + 1 ≤ (frame c).length) → Resp.depthList l ≤ (frames l).length := by
  intro l
  induction l with
  | nil => intro _; simp [Resp.depthList]
  | cons c cs ih =>
    intro h
    have hc := h c (List.mem_cons_self _ _)
    have hcs := ih (fun x hx => h x (List.mem_cons_of_mem _ hx))
    simp only [Resp.depthList, frames, List.length_append]
    exact max_le (by omega) (by omega)

theorem depth_lt_frame_length : ∀ v : Resp, v.depth + 1 ≤ (frame v).length := by
  intro v
  induction v using Resp.ind with
  | hs s => simp [Resp.depth, frame]
  | he t m => simp [Resp.depth, frame]
  | hi i => simp [Resp.depth, frame]
  | hb b => cases b <;> simp [Resp.depth, frame]
  | hn => simp [Resp.depth, frame]
  | ha l ih =>
    cases l with
    | nil => simp [Resp.depth, Resp.depthList, frame]
    | cons c cs =>
      have := depthList_le_frames (c :: cs) ih
      simp only [Resp.depth, frame, List.length_cons, List.length_append]
      omega

theorem readsBack_of (ovf : Nat → Int) (v : Resp) (pre tail : List Nat)
    (hframe : frame v = pre ++ 13 :: 10 :: tail) (hlf : 10 ∉ pre) (hlen : 2 ≤ pre.length)
    (hd : v.depth ≤ tail.length)
    (hp : ∀ fuel rest, v.depth < fuel → ParseResp ovf fuel (tail ++ rest) pre = (.ok v, rest)) :
    ReadsBack ovf v := by
  refine ⟨pre ++ [13, 10], tail, ?_, by simp; omega, hd, ?_⟩
  · intro rest
    rw [hframe]
    have := ReadBytes_line pre (tail ++ rest) hlf
    simpa using this
  · intro fuel rest hf
    rw [take_length_sub_two]
    exact hp fuel rest hf

theorem readFrame_of_readsBack (ovf : Nat → Int) (v : Resp) (h : ReadsBack ovf v)
    (fuel : Nat) (hf : v.depth < fuel) (rest : List Nat) :
    readFrame (ParseResp ovf fuel) (frame v ++ rest) = (.ok v, rest) := by
  obtain ⟨line, tail, hread, hlen, _, hparse⟩ := h
  unfold readFrame
  rw [hread rest]
  simp only
  rw [if_neg (by omega)]
  exact hparse fuel rest hf

/-- Every canonical value is read back from its frame. -/
theorem readsBack_of_canonical (ovf : Nat → Int) : ∀ v : Resp, v.Canonical → ReadsBack ovf v := by
  intro v
  induction v using Resp.ind with
  | hs s =>
    intro hc
    simp only [Resp.Canonical] at hc
    have hpos : 0 < s.length := List.length_pos.mpr hc.1
    refine readsBack_of ovf _ (43 :: s) [] (by simp [frame, byteCRLF]) (by simp [hc.2])
      (by simp; omega) (by simp [Resp.depth]) ?_
    intro fuel rest hf
    cases fuel with
    | zero => omega
    | succ f => simpa using ParseResp_simpleString ovf f rest s
  | he t m =>
    intro hc
    simp only [Resp.Canonical] at hc
    refine readsBack_of ovf _ (45 :: (t ++ 32 :: m)) [] (by simp [frame, byteCRLF])
      (by simp [hc.2.1, hc.2.2]) (by simp; omega) (by simp [Resp.depth]) ?_
    intro fuel rest hf
    cases fuel with
    | zero => omega
    | succ f =>
      rw [ParseResp_error]
      simpa using toError_type_message rest t m hc.1
  | hi i =>
    intro hc
    simp only [Resp.Canonical] at hc
    have hpos : 0 < i.length := List.length_pos.mpr hc.1
    refine readsBack_of ovf _ (58 :: i) [] (by simp [frame, byteCRLF]) (by simp [hc.2])
      (by simp; omega) (by simp [Resp.depth]) ?_
    intro fuel rest hf
    cases fuel with
    | zero => omega
    | succ f => simpa using ParseResp_integer ovf f rest i
  | hb b =>
    intro hc
    cases b with
    | none =>
      refine readsBack_of ovf _ [36, 45, 49] [] (by simp [frame]) (by simp) (by simp)
        (by simp [Resp.depth]) ?_
      intro fuel rest hf
      cases fuel with
      | zero => omega
      | succ f =>
        rw [ParseResp_bulkString]
        simpa using toBulkString_null ovf rest
    | some b =>
      simp only [Resp.Canonical] at hc
      have hpos := natBytes_length_pos b.length
      refine readsBack_of ovf _ (36 :: natBytes b.length) (b ++ [13, 10])
        (by simp [frame, byteCRLF]) (by simp [natBytes_no_lf]) (by simp; omega)
        (by simp [Resp.depth]) ?_
      intro fuel rest hf
      cases fuel with
      | zero => omega
      | succ f =>
        rw [ParseResp_bulkString]
        have := toBulkString_payload ovf b rest hc.1 hc.2
        simpa [byteCRLF] using this
  | hn =>
    intro _
    refine readsBack_of ovf _ [42, 45, 49] [] (by simp [frame]) (by simp) (by simp)
      (by simp [Resp.depth]) ?_
    intro fuel rest hf
    cases fuel with
    | zero => omega
    | succ f =>
      rw [ParseResp_array]
      simpa using toArray_null ovf (ParseResp ovf f) rest
  | ha l ih =>
    intro hc
    simp only [Resp.Canonical] at hc
    cases l with
    | nil =>
      refine readsBack_of ovf _ [42, 48] [] (by simp [frame]) (by simp) (by simp)
        (by simp [Resp.depth, Resp.depthList]) ?_
      intro fuel rest hf
      cases fuel with
      | zero => omega
      | succ f =>
        rw [ParseResp_array]
        simpa using toArray_empty ovf (ParseResp ovf f) rest
    | cons c cs =>
      have hpos := natBytes_length_pos (c :: cs).length
      have hcan := (canonicalList_iff (c :: cs)).mp hc.2
      have hdep : Resp.depthList (c :: cs) ≤ (frames (c :: cs)).length :=
        depthList_le_frames (c :: cs) (fun x _ => depth_lt_frame_length x)
      refine readsBack_of ovf _ (42 :: natBytes (c :: cs).length) (frames (c :: cs))
        (by simp [frame, byteCRLF]) (by simp [natBytes_no_lf]) (Nat.succ_le_succ hpos)
        (by simpa [Resp.depth] using hdep) ?_
      intro fuel rest hf
      cases fuel with
      | zero => omega
      | succ f =>
        have hf2 : Resp.depthList (c :: cs) < f + 1 := hf
        rw [ParseResp_array, toArray_count ovf _ _ _ (by simp) hc.1]
        rw [toArrayLoop_frames (ParseResp ovf f) rest (c :: cs) none, foldl_appendResp_none]
        intro x hx rest1
        have hdx := depth_lt_depthList (c :: cs) x hx
        exact readFrame_of_readsBack ovf x (ih x hx (hcan x hx)) f (by omega) rest1

/-- `ReadResponse` on the frame of a canonical value, followed by any bytes:
the value comes back and the reader stands right after the frame. -/
theorem ReadResponse_frame (ovf : Nat → Int) (v : Resp) (hv : v.Canonical) (rest : List Nat) :
    ReadResponse ovf (frame v ++ rest) = (.ok v, rest) := by
  obtain ⟨line, tail, hread, hlen, hd, hparse⟩ := readsBack_of_canonical ovf v hv
  unfold ReadResponse
  rw [hread rest]
  simp only
  rw [if_neg (by omega)]
  exact hparse _ rest (by simp; omega)

/-- C1 (amended). RESP round-trip: for every value in canonical form (simple
strings and integers with a non-empty payload free of LF, error types free
of space and LF, error messages free of LF, non-null bulk strings non-empty,
arrays null, empty or nested to any depth, sizes within what a program can
hold: bulk strings that with their `\r\n` are no larger than `maxAlloc`, array
counts within `int`), `ToRESP` returns a byte string on which the response
reader returns the same value, without error and with every byte consumed. -/
theorem resp_roundtrip (ovf : Nat → Int) (v : Resp) (hv : v.Canonical) :
    ∃ bs, v.ToRESP = some bs ∧ ReadResponse ovf bs = (.ok v, []) := by
  refine ⟨frame v, (ToRESP_eq_frame v).1, ?_⟩
  have := ReadResponse_frame ovf v hv []
  simpa using this

/-- C1 (amended) on a reply that holds all five kinds, a null bulk string, a
null and an empty array and arrays nested three deep. -/
theorem resp_roundtrip_witness :
    exampleReply.Canonical ∧
    ∃ bs, exampleReply.ToRESP = some bs ∧ ReadResponse ovfAmd64 bs = (.ok exampleReply, []) :=
  ⟨by simp [exampleReply, Resp.Canonical, Resp.CanonicalList, bytesOf, maxAlloc],
   resp_roundtrip ovfAmd64 exampleReply
    (by simp [exampleReply, Resp.Canonical, Resp.CanonicalList, bytesOf, maxAlloc])⟩

unseal wrapInt in
/-- C1 fails on the empty, non-null bulk string: `ToRESP` writes
`$0\r\n\r\n`, and the response reader rejects that frame with `invalid bulk
string length`, leaving `\r\n` unread. -/
theorem resp_roundtrip_empty_bulk :
    (Resp.BulkString (some [])).ToRESP = some (bytesOf "$0\r\n\r\n") ∧
    ReadResponse ovfAmd64 (bytesOf "$0\r\n\r\n")
      = (.error (.error "invalid bulk string length"), [13, 10]) :=
  ⟨rfl, rfl⟩

/-- C4 (amended). Forwarding of canonical replies: when the stream of the
backend starts with the frame of a canonical value, the response reader
consumes exactly that frame, without error, and `ToRESP` of the value it
returns is that frame byte for byte, whatever follows in the stream. -/
theorem reply_forwarded_verbatim (ovf : Nat → Int) (v : Resp) (hv : v.Canonical)
    (rest : List Nat) :
    ∃ consumed, v.ToRESP = some consumed ∧
      ∃ w, ReadResponse ovf (consumed ++ rest) = (.ok w, rest) ∧ w.ToRESP = some consumed :=
  ⟨frame v, (ToRESP_eq_frame v).1, v, ReadResponse_frame ovf v hv rest, (ToRESP_eq_frame v).1⟩

/-- C4 (amended) on the integer reply `:007\r\n` followed by `+OK\r\n`: the
seven bytes of the frame are consumed and written back unchanged. -/
theorem reply_forwarded_verbatim_witness :
    (Resp.Integer (bytesOf "007")).Canonical ∧
    (Resp.Integer (bytesOf "007")).ToRESP = some (bytesOf ":007\r\n") ∧
    ∃ consumed, (Resp.Integer (bytesOf "007")).ToRESP = some consumed ∧
      ∃ w, ReadResponse ovfAmd64 (consumed ++ bytesOf "+OK\r\n") = (.ok w, bytesOf "+OK\r\n") ∧
        w.ToRESP = some consumed :=
  ⟨by simp [Resp.Canonical, bytesOf], rfl,
   reply_forwarded_verbatim ovfAmd64 (Resp.Integer (bytesOf "007"))
    (by simp [Resp.Canonical, bytesOf]) (bytesOf "+OK\r\n")⟩

unseal wrapInt in
/-- C4 fails on `$03\r\nbar\r\n`: the response reader accepts the frame and
consumes its ten bytes, and `ToRESP` of the parsed value is the nine bytes
`$3\r\nbar\r\n`. -/
theorem reply_reencoded_counterexample :
    ReadResponse ovfAmd64 (bytesOf "$03\r\nbar\r\n")
      = (.ok (.BulkString (some (bytesOf "bar"))), []) ∧
    (Resp.BulkString (some (bytesOf "bar"))).ToRESP = some (bytesOf "$3\r\nbar\r\n") ∧
    bytesOf "$3\r\nbar\r\n" ≠ bytesOf "$03\r\nbar\r\n" :=
  ⟨rfl, rfl, by decide⟩

unseal wrapInt in
/-- The replies named in the specification are read and written back
unchanged: `$3\r\nbar\r\n`, `*0\r\n`, `*-1\r\n`, `$-1\r\n`, `:007\r\n` and
`:+5\r\n`. -/
theorem reply_examples :
    ReadResponse ovfAmd64 (bytesOf "$3\r\nbar\r\n")
      = (.ok (.BulkString (some (bytesOf "bar"))), []) ∧
    (Resp.BulkString (some (bytesOf "bar"))).ToRESP = some (bytesOf "$3\r\nbar\r\n") ∧
    ReadResponse ovfAmd64 (bytesOf "*0\r\n") = (.ok (.Array (some [])), []) ∧
    (Resp.Array (some [])).ToRESP = some (bytesOf "*0\r\n") ∧
    ReadResponse ovfAmd64 (bytesOf "*-1\r\n") = (.ok (.Array none), []) ∧
    (Resp.Array none).ToRESP = some (bytesOf "*-1\r\n") ∧
    ReadResponse ovfAmd64 (bytesOf "$-1\r\n") = (.ok (.BulkString none), []) ∧
    (Resp.BulkString none).ToRESP = some (bytesOf "$-1\r\n") ∧
    ReadResponse ovfAmd64 (bytesOf ":007\r\n") = (.ok (.Integer (bytesOf "007")), []) ∧
    ReadResponse ovfAmd64 (bytesOf ":+5\r\n") = (.ok (.Integer (bytesOf "+5")), []) ∧
    (Resp.Integer (bytesOf "+5")).ToRESP = some (bytesOf ":+5\r\n") :=
  ⟨rfl, rfl, rfl, rfl, rfl, rfl, rfl, rfl, rfl, rfl, rfl⟩

/-! ## Bulk strings and errors -/

theorem wrapInt_range (x : Int) :
    -9223372036854775808 ≤ wrapInt x ∧ wrapInt x < 9223372036854775808 := by
  unfold wrapInt
  omega

theorem bytesLoop_range (ovf : Nat → Int) : ∀ (l : List Nat) (number : Int),
    (-9223372036854775808 ≤ number ∧ number < 9223372036854775808) →
    -9223372036854775808 ≤ bytesLoop ovf l number ∧
      bytesLoop ovf l number < 9223372036854775808 := by
  intro l
  induction l with
  | nil => intro number h; exact h
  | cons b rest ih =>
    intro number _
    rw [bytesLoop]
    exact ih _ (wrapInt_range _)

/-- What `BytesToNumber` returns is an `int`. -/
theorem BytesToNumber_range (ovf : Nat → Int) : ∀ (data : List Nat) (L : Int),
    BytesToNumber ovf data = .ok L →
    -9223372036854775808 ≤ L ∧ L < 9223372036854775808 := by
  intro data
  induction data with
  | nil => intro L h; simp [BytesToNumber] at h
  | cons b rest ih =>
    intro L h
    by_cases hb : b = 45
    · subst hb
      rw [BytesToNumber, if_pos rfl] at h
      cases hr : BytesToNumber ovf rest with
      | ok n =>
        rw [hr] at h
        simp only [Except.ok.injEq] at h
        rw [← h]
        exact wrapInt_range _
      | error e =>
        rw [hr] at h
        cases h
    · rw [BytesToNumber, if_neg hb] at h
      simp only [Except.ok.injEq] at h
      rw [← h]
      exact bytesLoop_range ovf _ 0 (by omega)

theorem toBulkString_by_length (ovf : Nat → Int) (br data : List Nat) (L : Int)
    (hL : BytesToNumber ovf data = .ok L) (hpos : 0 < L)
    (hfit : L + 2 ≤ maxAlloc) :
    toBulkString ovf br data =
      (match ReadFull br (L.toNat + 2) with
       | (.error e, br1) => (.error e, br1)
       | (.ok buf, br1) => (.ok (.BulkString (some (buf.take (buf.length - 2)))), br1)) := by
  have hm : maxAlloc = 281474976710656 := rfl
  have hw : wrapInt (L + 2) = L + 2 := wrapInt_of_range _ (by omega) (by omega)
  have hn : (L + 2).toNat = L.toNat + 2 := by omega
  unfold toBulkString
  rw [hL]
  simp only
  rw [if_neg (by omega), if_neg (by omega), hw, if_neg (by omega), hn]
  unfold ReadFull
  by_cases hlen : L.toNat + 2 ≤ br.length
  · rw [if_pos hlen]
    simp only
    rw [if_neg (by simp; omega)]
  · rw [if_neg hlen]
    by_cases h0 : br.length = 0
    · rw [if_pos h0]
    · rw [if_neg h0]

/-- A bulk length `L` with `L + 2` above `maxAlloc`: `make` panics, whatever
the stream holds, and nothing is read. -/
theorem toBulkString_above_limit (ovf : Nat → Int) (br data : List Nat) (L : Int)
    (hL : BytesToNumber ovf data = .ok L) (hbig : (maxAlloc : Int) < L + 2) :
    toBulkString ovf br data = (.error (.panic "makeslice: len out of range"), br) := by
  have hm : maxAlloc = 281474976710656 := rfl
  have hr := BytesToNumber_range ovf data L hL
  have hcond : wrapInt (L + 2) < 0 ∨ (maxAlloc : Int) < wrapInt (L + 2) := by
    unfold wrapInt
    omega
  unfold toBulkString
  rw [hL]
  simp only
  rw [if_neg (by omega), if_neg (by omega), if_pos hcond]

/-- `toBulkString` by the length `L` that its header decodes to: `L = -1`
gives the null bulk string and reads nothing; `L = 0` and every `L < -1` are
rejected with `invalid bulk string length` and read nothing; `L > 0` with
`L + 2` up to `maxAlloc` reads exactly `L + 2` further bytes and gives the first
`L` of them as a non-null payload, or fails with `io.EOF` or
`io.ErrUnexpectedEOF` when fewer than `L + 2` bytes are left; and every larger
`L` ends in the panic of `make`. -/
theorem bulk_string_by_length (ovf : Nat → Int) (br data : List Nat) (L : Int)
    (hL : BytesToNumber ovf data = .ok L) :
    (L = -1 → toBulkString ovf br data = (.ok (.BulkString none), br)) ∧
    (L = 0 ∨ L < -1 →
      toBulkString ovf br data = (.error (.error "invalid bulk string length"), br)) ∧
    (0 < L → L + 2 ≤ maxAlloc →
      (L.toNat + 2 ≤ br.length →
        toBulkString ovf br data
          = (.ok (.BulkString (some (br.take L.toNat))), br.drop (L.toNat + 2))) ∧
      (br.length < L.toNat + 2 →
        toBulkString ovf br data = (.error .EOF, []) ∨
        toBulkString ovf br data = (.error .ErrUnexpectedEOF, []))) ∧
    ((maxAlloc : Int) < L + 2 →
      toBulkString ovf br data = (.error (.panic "makeslice: len out of range"), br)) := by
  refine ⟨?_, ?_, ?_, toBulkString_above_limit ovf br data L hL⟩
  · intro h
    subst h
    unfold toBulkString
    rw [hL]
    rfl
  · intro h
    unfold toBulkString
    rw [hL]
    simp only
    rw [if_neg (by omega), if_pos (by omega)]
  · intro hpos hfit
    rw [toBulkString_by_length ovf br data L hL hpos hfit]
    unfold ReadFull
    constructor
    · intro hlen
      rw [if_pos hlen]
      simp only [List.length_take, List.take_take]
      have hmin : ((L.toNat + 2) ⊓ br.length - 2) ⊓ (L.toNat + 2) = L.toNat := by
        rw [Nat.min_eq_left hlen]
        omega
      rw [hmin]
    · intro hlen
      rw [if_neg (by omega)]
      by_cases h0 : br.length = 0
      · rw [if_pos h0]
        exact Or.inl rfl
      · rw [if_neg h0]
        exact Or.inr rfl

/-- The header `$3` before the stream `bar\r\n+OK\r\n`: five bytes are read
and the payload is `bar`. -/
theorem bulk_string_by_length_witness :
    BytesToNumber ovfAmd64 (bytesOf "3") = .ok 3 ∧
    toBulkString ovfAmd64 (bytesOf "bar\r\n+OK\r\n") (bytesOf "3")
      = (.ok (.BulkString (some (bytesOf "bar"))), bytesOf "+OK\r\n") :=
  ⟨BytesToNumber_natBytes ovfAmd64 3 (by omega),
   ((bulk_string_by_length ovfAmd64 (bytesOf "bar\r\n+OK\r\n") (bytesOf "3") 3
      (BytesToNumber_natBytes ovfAmd64 3 (by omega))).2.2.1 (by omega) (by decide)).1 (by decide)⟩

set_option maxRecDepth 100000 in
unseal wrapInt in
/-- C11. A bulk length above what `make` grants is not answered with an
error: on the reply `$9223372036854775805\r\nab`, where two of the announced
bytes are there, `toBulkString` panics in `make([]byte, bytesNum+2)` before it
reads anything, and so it does from the length `281474976710655` on (the first
`L` with `L + 2` above `maxAlloc`) and on `9223372036854775806`, where
`bytesNum+2` wraps; on `$5\r\nab` the same shortage gives
`io.ErrUnexpectedEOF`. -/
theorem bulk_string_length_unchecked :
    ReadResponse ovfAmd64 (bytesOf "$9223372036854775805\r\nab")
      = (.error (.panic "makeslice: len out of range"), bytesOf "ab") ∧
    ReadResponse ovfAmd64 (bytesOf "$281474976710655\r\nab")
      = (.error (.panic "makeslice: len out of range"), bytesOf "ab") ∧
    ReadResponse ovfAmd64 (bytesOf "$9223372036854775806\r\nab")
      = (.error (.panic "makeslice: len out of range"), bytesOf "ab") ∧
    ReadResponse ovfAmd64 (bytesOf "$5\r\nab") = (.error .ErrUnexpectedEOF, []) ∧
    ReadResponse ovfAmd64 (bytesOf "$2\r\nab\r\n")
      = (.ok (.BulkString (some (bytesOf "ab"))), []) :=
  ⟨rfl, rfl, rfl, rfl, rfl⟩

theorem splitSpace_no_space : ∀ p : List Nat, 32 ∉ p → splitSpace p = [p] := by
  intro p
  induction p with
  | nil => intro _; rfl
  | cons b rest ih =>
    intro h
    have hb : b ≠ 32 := fun e => h (by simp [e])
    have hr : 32 ∉ rest := fun e => h (List.mem_cons_of_mem _ e)
    simp [splitSpace, hb, ih hr]

theorem exists_first_space : ∀ p : List Nat, 32 ∈ p →
    ∃ t m, p = t ++ 32 :: m ∧ 32 ∉ t := by
  intro p
  induction p with
  | nil => intro h; cases h
  | cons b rest ih =>
    intro h
    by_cases hb : b = 32
    · exact ⟨[], rest, by simp [hb], by simp⟩
    · have hr : 32 ∈ rest := by
        rcases List.mem_cons.mp h with h | h
        · exact absurd h.symm hb
        · exact h
      obtain ⟨t, m, hp, ht⟩ := ih hr
      refine ⟨b :: t, m, by simp [hp], ?_⟩
      intro hmem
      rcases List.mem_cons.mp hmem with h1 | h1
      · exact hb h1.symm
      · exact ht h1

/-- C12. Error parsing: on a payload without a space `toError` fails with
`invalid error respose`; on a payload with a space it returns the Error
whose type is the bytes before the first space and whose message is all the
bytes after it (later spaces kept), so that type, space and message make up
the payload again and `ToRESP` writes the line back as it came.  The line
`-WRONGTYPE Operation against a key holding the wrong kind of value` gives
the type `WRONGTYPE` and the message after it. -/
theorem error_parsing (br p : List Nat) :
    (32 ∉ p → toError br p = (.error (.error "invalid error respose"), br)) ∧
    (32 ∈ p → ∃ t m, p = t ++ [32] ++ m ∧ 32 ∉ t ∧
      toError br p = (.ok (.Error t m), br) ∧
      (Resp.Error t m).ToRESP = some (45 :: p ++ byteCRLF)) ∧
    toError br (bytesOf "WRONGTYPE Operation against a key holding the wrong kind of value")
      = (.ok (.Error (bytesOf "WRONGTYPE")
          (bytesOf "Operation against a key holding the wrong kind of value")), br) := by
  refine ⟨?_, ?_, ?_⟩
  · intro h
    unfold toError
    rw [splitSpace_no_space p h]
  · intro h
    obtain ⟨t, m, hp, ht⟩ := exists_first_space p h
    refine ⟨t, m, by simp [hp], ht, ?_, ?_⟩
    · rw [hp]
      exact toError_type_message br t m ht
    · simp [Resp.ToRESP, hp]
  · exact toError_type_message br (bytesOf "WRONGTYPE")
      (bytesOf "Operation against a key holding the wrong kind of value") (by decide)

/-- C12 on the payload `ERR  two  spaces` (consecutive spaces): the type is
`ERR`, the message keeps every later space, and a payload without a space is
rejected. -/
theorem error_parsing_witness :
    (32 ∈ bytesOf "ERR  two  spaces" ∧ 32 ∉ bytesOf "ERR") ∧
    toError [] (bytesOf "ERR  two  spaces")
      = (.ok (.Error (bytesOf "ERR") (bytesOf " two  spaces")), []) ∧
    toError [] (bytesOf "ERR") = (.error (.error "invalid error respose"), []) :=
  ⟨by decide, rfl, (error_parsing [] (bytesOf "ERR")).1 (by decide)⟩

/-! ## Arrays -/

/-- The loop of `toArray` never hands an `error` value to its caller: a
failed read or a failed child ends the loop with a `nil` error. -/
theorem toArrayLoop_no_error (parse : List Nat → List Nat → Except Err Resp × List Nat) :
    ∀ (n : Nat) (br : List Nat) (arr : Option (List Resp)) (e : Err),
    (toArrayLoop parse n br arr).1 = .error e → e.isError = false := by
  intro n
  induction n with
  | zero => intro br arr e h; simp [toArrayLoop] at h
  | succ k ih =>
    intro br arr e h
    rw [toArrayLoop] at h
    cases hr : ReadBytes br with
    | mk r br1 =>
      rw [hr] at h
      cases r with
      | error e1 => simp at h
      | ok buf =>
        simp only at h
        by_cases hlen : buf.length < 4
        · rw [if_pos hlen] at h
          simp at h
        · rw [if_neg hlen] at h
          cases hp : parse br1 (buf.take (buf.length - 2)) with
          | mk r2 br2 =>
            rw [hp] at h
            cases r2 with
            | ok sub => exact ih br2 _ e h
            | error e2 =>
              cases e2 with
              | panic msg =>
                simp only at h
                cases h
                rfl
              | fuel =>
                simp only at h
                cases h
                rfl
              | error msg => simp at h
              | EOF => simp at h
              | ErrUnexpectedEOF => simp at h

unseal wrapInt in
/-- C13. An array whose child cannot be read or parsed is delivered all the
same, cut short and without error: with the header `*2` and the first child
`:1`, a stream that ends, a child line of three bytes, a child with an
unknown tag and a child with the bulk length 0 each give the array of the
one element `1`; with the header `*1`, an error line without a space gives
the null array. -/
theorem array_child_error_swallowed :
    ReadResponse ovfAmd64 (bytesOf "*2\r\n:1\r\n")
      = (.ok (.Array (some [.Integer (bytesOf "1")])), []) ∧
    ReadResponse ovfAmd64 (bytesOf "*2\r\n:1\r\n:\r\n")
      = (.ok (.Array (some [.Integer (bytesOf "1")])), []) ∧
    ReadResponse ovfAmd64 (bytesOf "*2\r\n:1\r\n?x\r\n")
      = (.ok (.Array (some [.Integer (bytesOf "1")])), []) ∧
    ReadResponse ovfAmd64 (bytesOf "*2\r\n:1\r\n$0\r\n\r\n")
      = (.ok (.Array (some [.Integer (bytesOf "1")])), [13, 10]) ∧
    ReadResponse ovfAmd64 (bytesOf "*1\r\n-ERR\r\n") = (.ok (.Array none), []) :=
  ⟨rfl, rfl, rfl, rfl, rfl⟩

/-! ## Decimal encodings -/

theorem digitChar_toNat (d : Nat) (h : d < 10) : (Nat.digitChar d).toNat = 48 + d := by
  interval_cases d <;> rfl

theorem toDigitsCore_eq_numberLoop : ∀ (fuel n : Nat) (ds : List Char),
    (Nat.toDigitsCore 10 fuel n ds).map Char.toNat = numberLoop fuel n (ds.map Char.toNat) := by
  intro fuel
  induction fuel with
  | zero => intro n ds; simp [Nat.toDigitsCore, numberLoop]
  | succ f ih =>
    intro n ds
    simp only [Nat.toDigitsCore, numberLoop]
    by_cases h : n < 10
    · have h0 : n / 10 = 0 := Nat.div_eq_of_lt h
      have hm : n % 10 = n := Nat.mod_eq_of_lt h
      rw [if_pos h0, if_pos h, hm]
      simp [digitChar_toNat n h]
    · have h0 : ¬ n / 10 = 0 := by omega
      rw [if_neg h0, if_neg h, ih]
      simp [digitChar_toNat (n % 10) (Nat.mod_lt _ (by omega))]

/-- The digit loop of `NumberToBytes` writes the decimal digits of `n`. -/
theorem natBytes_eq_decimal (n : Nat) : natBytes n = decimal n := by
  unfold natBytes decimal Nat.toDigits
  rw [toDigitsCore_eq_numberLoop]
  rfl

theorem encodeArgs_eq_spec : ∀ params : List (List Nat),
    encodeArgs params = (params.map specBulk).flatten := by
  intro params
  induction params with
  | nil => rfl
  | cons p ps ih => simp [encodeArgs, specBulk, ih, natBytes_eq_decimal]

/-- C14. Command encoding: for a command with name `s` and parameters
`p1..pn`, `ToRESP` is `*`, the decimal of `n+1`, `\r\n`, and then for each of
`s, p1, .., pn` in this order `$`, the decimal length, `\r\n`, the bytes,
`\r\n`; so `PING()` is `*1\r\n$4\r\nPING\r\n` (hex 2a 31 0d 0a 24 34 0d 0a 50
49 4e 47 0d 0a) and `GET("foo")` is `*2\r\n$3\r\nGET\r\n$3\r\nfoo\r\n`. -/
theorem command_encoding (cmd : Command)
    (hcount : 1 + cmd.Params.length < 9223372036854775808) :
    cmd.ToRESP = some (specCommand cmd) ∧
    specCommand PING
      = [0x2a, 0x31, 0x0d, 0x0a, 0x24, 0x34, 0x0d, 0x0a, 0x50, 0x49, 0x4e, 0x47, 0x0d, 0x0a] ∧
    specCommand PING = bytesOf "*1\r\n$4\r\nPING\r\n" ∧
    specCommand (GET (bytesOf "foo")) = bytesOf "*2\r\n$3\r\nGET\r\n$3\r\nfoo\r\n" := by
  refine ⟨?_, by decide, by decide, by decide⟩
  rw [Command.ToRESP_eq cmd hcount]
  simp only [encodeCommand, specCommand, encodeArgs_eq_spec, natBytes_eq_decimal,
    Nat.add_comm 1 cmd.Params.length]

/-- C14 on `PING()` and on `GET("foo")`. -/
theorem command_encoding_witness :
    PING.ToRESP = some (bytesOf "*1\r\n$4\r\nPING\r\n") ∧
    (GET (bytesOf "foo")).ToRESP = some (bytesOf "*2\r\n$3\r\nGET\r\n$3\r\nfoo\r\n") :=
  ⟨(command_encoding PING (by decide)).1.trans (congrArg some (by decide)),
   (command_encoding (GET (bytesOf "foo")) (by decide)).1.trans (congrArg some (by decide))⟩

theorem wrapInt_neg_min :
    wrapInt (-9223372036854775808 * -1) = -9223372036854775808 := by
  unfold wrapInt
  norm_num

/-- Every `int` but the most negative one is encoded as its decimal digits,
after a `-` when it is negative. -/
theorem NumberToBytes_eq_decimal (n : Int) (h1 : -9223372036854775808 < n)
    (h2 : n < 9223372036854775808) :
    NumberToBytes n
      = some (if n < 0 then 45 :: decimal (-n).toNat else decimal n.toNat) := by
  rcases Int.lt_or_le n 0 with hn | hn
  · obtain ⟨m, hm⟩ := Int.eq_ofNat_of_zero_le (show 0 ≤ -n by omega)
    have hn2 : n = -(m : Int) := by omega
    subst hn2
    rw [if_pos hn, NumberToBytes_neg m (by omega) (by omega), natBytes_eq_decimal]
    simp
  · obtain ⟨m, hm⟩ := Int.eq_ofNat_of_zero_le hn
    subst hm
    rw [if_neg (by omega), NumberToBytes_natCast, natBytes_eq_decimal]
    simp

/-- C15. On the most negative `int`, `-2^63`, `NumberToBytes` never returns:
`num * -1` wraps around to `num` itself, so the call repeats with the same
argument, whatever the depth allowed. -/
theorem number_encoder_min_int (fuel : Nat) :
    wrapInt (-9223372036854775808 * -1) = -9223372036854775808 ∧
    NumberToBytesFuel fuel (-9223372036854775808) = none := by
  refine ⟨wrapInt_neg_min, ?_⟩
  induction fuel with
  | zero => rfl
  | succ f ih =>
    rw [NumberToBytesFuel, if_pos (by omega), wrapInt_neg_min, ih]

theorem frames_eq_flatten : ∀ l : List Resp, frames l = (l.map frame).flatten := by
  intro l
  induction l with
  | nil => rfl
  | cons c cs ih => simp [frames, ih]

/-- C18. Array serialization: for an array of `N ≥ 1` elements, nested to
any depth, `ToRESP` is `*`, the decimal of `N`, `\r\n`, and then the complete
`ToRESP` output of every element in order; and every `ToRESP` output ends
in `\r\n`, so that dropping the last two bytes of the last element is in
range and removes a `\r\n`, which the frame's own `\r\n` puts back. -/
theorem array_serialization (l : List Resp) (hN : 1 ≤ l.length) :
    (∃ outs, List.Forall₂ (fun c out => Resp.ToRESP c = some out) l outs ∧
      (Resp.Array (some l)).ToRESP
        = some (42 :: decimal l.length ++ byteCRLF ++ outs.flatten)) ∧
    (∀ v : Resp, ∃ b, v.ToRESP = some (b ++ byteCRLF)) := by
  constructor
  · refine ⟨l.map frame, ?_, ?_⟩
    · rw [List.forall₂_map_right_iff]
      exact List.forall₂_same.mpr (fun c _ => (ToRESP_eq_frame c).1)
    · rw [(ToRESP_eq_frame _).1]
      cases l with
      | nil => simp at hN
      | cons c cs => rw [frame, frames_eq_flatten, natBytes_eq_decimal]
  · intro v
    obtain ⟨h, b, hb⟩ := ToRESP_eq_frame v
    exact ⟨b, by rw [h, hb]; rfl⟩

/-- C18 on the array of the integer `1` and the array of the bulk string
`a`: the frame is the header `*2` followed by the frames `:1` and
`*1 $1 a` in full. -/
theorem array_serialization_witness :
    (Resp.Array (some [.Integer [49], .Array (some [.BulkString (some [97])])])).ToRESP
      = some (bytesOf "*2\r\n:1\r\n*1\r\n$1\r\na\r\n") ∧
    ((∃ outs, List.Forall₂ (fun c out => Resp.ToRESP c = some out)
        [.Integer [49], .Array (some [.BulkString (some [97])])] outs ∧
      (Resp.Array (some [.Integer [49], .Array (some [.BulkString (some [97])])])).ToRESP
        = some (42 :: decimal 2 ++ byteCRLF ++ outs.flatten)) ∧
    (∀ v : Resp, ∃ b, v.ToRESP = some (b ++ byteCRLF))) :=
  ⟨rfl, array_serialization [.Integer [49], .Array (some [.BulkString (some [97])])] (by decide)⟩



/-! ## The backend registry -/

theorem lookup_isSome_iff (name : String) : ∀ l : List (String × Conn),
    (l.lookup name).isSome ↔ name ∈ l.map Prod.fst := by
  intro l
  induction l with
  | nil => simp [List.lookup]
  | cons x xs ih =>
    obtain ⟨k, c⟩ := x
    by_cases h : name = k
    · subst h
      simp [List.lookup]
    · have hb : (name == k) = false := by simpa using h
      simp [List.lookup, hb, ih, h]

theorem ConnectRedis_membership (ovf : Nat → Int) (p : Proxy) (addr : String) (b : Backend)
    (h : ∀ name, name ∈ p.clusterNames ↔ name ∈ p.clusters.map Prod.fst) :
    ∀ name, name ∈ (ConnectRedis ovf p addr b).2.clusterNames
      ↔ name ∈ (ConnectRedis ovf p addr b).2.clusters.map Prod.fst := by
  intro name
  unfold ConnectRedis
  cases Connect ovf b with
  | some err =>
    by_cases he : err.isError = true
    · simp only [if_pos he]
      exact h name
    · simp only [if_neg he]
      exact h name
  | none =>
    simp only [List.mem_append, List.mem_singleton, List.map_cons, List.mem_cons, h name]
    tauto

theorem connectAll_membership (ovf : Nat → Int) : ∀ (calls : List (String × Backend)) (p : Proxy),
    (∀ name, name ∈ p.clusterNames ↔ name ∈ p.clusters.map Prod.fst) →
    ∀ name, name ∈ (connectAll ovf p calls).clusterNames
      ↔ name ∈ (connectAll ovf p calls).clusters.map Prod.fst := by
  intro calls
  induction calls with
  | nil => intro p h; exact h
  | cons c cs ih =>
    intro p h
    exact ih _ (ConnectRedis_membership ovf p c.1 c.2 h)

theorem routeIndex_lt (md5Sum : List Nat → List Nat) (ht : HashTag) (K : Nat) (cmd : Command)
    (hK : 1 ≤ K) : ∃ i, i < K ∧ routeIndex md5Sum ht K cmd = .ok i := by
  unfold routeIndex
  cases cmd.Params with
  | nil => exact ⟨0, by omega, rfl⟩
  | cons param0 rest =>
    refine ⟨(md5Sum (shardKey ht param0)).sum % K, Nat.mod_lt _ (by omega), ?_⟩
    simp only
    rw [if_neg (by omega)]

/-- With matching registry and a name list that is not empty,
`acquireSvcConn` returns a connection. -/
theorem acquireSvcConn_ok (md5Sum : List Nat → List Nat) (p : Proxy) (cmd : Command)
    (h : ∀ name, name ∈ p.clusterNames ↔ name ∈ p.clusters.map Prod.fst)
    (hne : p.clusterNames ≠ []) : ∃ conn, acquireSvcConn md5Sum p cmd = .ok conn := by
  have hK : 1 ≤ p.clusterNames.length := List.length_pos.mpr hne
  obtain ⟨i, hi, hr⟩ := routeIndex_lt md5Sum p.ht p.clusterNames.length cmd hK
  have hmem : p.clusterNames.get ⟨i, hi⟩ ∈ p.clusterNames := List.get_mem _ _ _
  have hsome := (lookup_isSome_iff _ p.clusters).mpr ((h _).mp hmem)
  obtain ⟨conn, hconn⟩ := Option.isSome_iff_exists.mp hsome
  refine ⟨conn, ?_⟩
  unfold acquireSvcConn
  rw [hr]
  simp only
  rw [List.get?_eq_get hi]
  simp only
  rw [hconn]

/-- C20. Backend registry invariant: starting from `New`, after any
sequence of `ConnectRedis` calls (successful or failed, addresses repeated
or not) a name is in the backend-name list if and only if it is a key of the
backend map; so whenever the list is not empty `acquireSvcConn` returns a
connection, and never the error `acquire redis conn failure`. -/
theorem registry_invariant (ovf : Nat → Int) (calls : List (String × Backend)) :
    (∀ name, name ∈ (connectAll ovf New calls).clusterNames
      ↔ ((connectAll ovf New calls).clusters.lookup name).isSome) ∧
    ((connectAll ovf New calls).clusterNames ≠ [] →
      ∀ (md5Sum : List Nat → List Nat) (cmd : Command),
        (∃ conn, acquireSvcConn md5Sum (connectAll ovf New calls) cmd = .ok conn) ∧
        acquireSvcConn md5Sum (connectAll ovf New calls) cmd
          ≠ .error (.error "acquire redis conn failure")) := by
  have hinv := connectAll_membership ovf calls New (by simp [New])
  refine ⟨fun name => ?_, fun hne md5Sum cmd => ?_⟩
  · rw [lookup_isSome_iff]
    exact hinv name
  · obtain ⟨conn, hc⟩ := acquireSvcConn_ok md5Sum _ cmd hinv hne
    exact ⟨⟨conn, hc⟩, by rw [hc]; intro h; cases h⟩

/-- C20 on the calls for `A` (answers PONG), `B` (answers NOTPONG) and `A`
again: the list is `A, A`, the map has the one key `A`, and `GET foo` gets
a connection. -/
theorem registry_invariant_witness :
    (connectAll ovfAmd64 New [("A", backendPong), ("B", backendNotPong), ("A", backendPong)]).clusterNames
      = ["A", "A"] ∧
    (connectAll ovfAmd64 New [("A", backendPong), ("B", backendNotPong), ("A", backendPong)]).clusterNames
      ≠ [] ∧
    ((∃ conn, acquireSvcConn exampleDigest
        (connectAll ovfAmd64 New [("A", backendPong), ("B", backendNotPong), ("A", backendPong)])
        (GET (bytesOf "foo")) = .ok conn) ∧
      acquireSvcConn exampleDigest
        (connectAll ovfAmd64 New [("A", backendPong), ("B", backendNotPong), ("A", backendPong)])
        (GET (bytesOf "foo")) ≠ .error (.error "acquire redis conn failure")) :=
  ⟨by decide, by decide,
   (registry_invariant ovfAmd64
      [("A", backendPong), ("B", backendNotPong), ("A", backendPong)]).2 (by decide)
      exampleDigest (GET (bytesOf "foo"))⟩

/-! ## The dispatcher -/

/-- A round of the dispatcher on a transaction whose `Error` is not set:
when the round ends without a panic it has performed exactly one send on the
reply channel and no close; the reply carries the error when routing, writing
the command or reading the response returns an error, and the parsed response
otherwise. -/
theorem one_reply_per_transaction (md5Sum : List Nat → List Nat) (ovf : Nat → Int) (p : Proxy)
    (backend : Conn → Backend) (trans : transaction) (hErr : trans.Error = none) :
    (∀ ops, ServeRound md5Sum ovf p backend trans = .ok ops → ∃ reply, ops = [.send reply]) ∧
    (∀ err, Proxy.WriteCommand md5Sum ovf p backend trans.cmd = .error err →
      err.isError = true →
      ServeRound md5Sum ovf p backend trans
        = .ok [.send { cmd := nilCommand, resp := none, Error := some err }]) ∧
    (∀ resp, Proxy.WriteCommand md5Sum ovf p backend trans.cmd = .ok resp →
      ServeRound md5Sum ovf p backend trans
        = .ok [.send { cmd := nilCommand, resp := some resp, Error := none }]) ∧
    (∀ err, acquireSvcConn md5Sum p trans.cmd = .error err →
      Proxy.WriteCommand md5Sum ovf p backend trans.cmd = .error err) ∧
    (∀ conn err, acquireSvcConn md5Sum p trans.cmd = .ok conn →
      (backend conn).write = some err →
      Proxy.WriteCommand md5Sum ovf p backend trans.cmd = .error err) ∧
    (∀ conn, acquireSvcConn md5Sum p trans.cmd = .ok conn → (backend conn).write = none →
      Proxy.WriteCommand md5Sum ovf p backend trans.cmd
        = (ReadResponse ovf (backend conn).reply).1) := by
  refine ⟨?_, ?_, ?_, ?_, ?_, ?_⟩
  · intro ops h
    unfold ServeRound at h
    rw [hErr] at h
    simp only at h
    cases hw : Proxy.WriteCommand md5Sum ovf p backend trans.cmd with
    | error err =>
      rw [hw] at h
      simp only at h
      by_cases he : err.isError = true
      · rw [if_pos he] at h
        cases h
        exact ⟨_, rfl⟩
      · rw [if_neg he] at h
        cases h
    | ok resp =>
      rw [hw] at h
      cases h
      exact ⟨_, rfl⟩
  · intro err hw he
    unfold ServeRound
    rw [hErr]
    simp only
    rw [hw]
    simp only
    rw [if_pos he]
  · intro resp hw
    unfold ServeRound
    rw [hErr]
    simp only
    rw [hw]
  · intro err ha
    unfold Proxy.WriteCommand
    rw [ha]
  · intro conn err ha hw
    unfold Proxy.WriteCommand
    rw [ha]
    simp only
    rw [hw]
  · intro conn ha hw
    unfold Proxy.WriteCommand
    rw [ha]
    simp only
    rw [hw]

unseal wrapInt in
/-- On `GET foo` with the backend answering `$3\r\nbar\r\n`: one send,
carrying the bulk string `bar`. -/
theorem one_reply_per_transaction_witness :
    (transaction.mk (GET (bytesOf "foo")) none none).Error = none ∧
    ServeRound exampleDigest ovfAmd64 exampleProxy (fun _ => backendBar)
        (transaction.mk (GET (bytesOf "foo")) none none)
      = .ok [.send { cmd := nilCommand, resp := some (.BulkString (some (bytesOf "bar"))),
                     Error := none }] :=
  ⟨rfl, (one_reply_per_transaction exampleDigest ovfAmd64 exampleProxy (fun _ => backendBar)
      (transaction.mk (GET (bytesOf "foo")) none none) rfl).2.2.1
      (.BulkString (some (bytesOf "bar"))) rfl⟩

/-- The guard `if trans.Error != nil` of `Serve`: on a transaction whose
`Error` is already set the dispatcher goes on to the next one and sends
nothing.  No session submits such a transaction (`IOLoopTransaction`). -/
theorem pre_errored_transaction_gets_no_reply :
    ServeRound exampleDigest ovfAmd64 exampleProxy (fun _ => backendBar)
        (transaction.mk (GET (bytesOf "foo")) none (some .EOF)) = .ok [] :=
  rfl

set_option maxRecDepth 1000000 in
unseal wrapInt in
/-- C19. A transaction that gets no reply.  The session submits `GET foo`
(with `Error` not set) and the backend answers `$-\r\n`: `ReadResponse`
panics inside `BytesToNumber`, which reads `numBytes[0]` of the empty slice
left after the `-`; `WriteCommand` returns nothing, and the round of the
dispatcher ends in that panic before its send, so the reply channel of the
transaction gets no send at all.  With the answer `$3\r\nbar\r\n` the same
round sends its one reply. -/
theorem reply_lost_on_parser_panic :
    (IOLoopTransaction (GET (bytesOf "foo"))).Error = none ∧
    (ReadResponse ovfAmd64 backendLoneMinus.reply).1
      = .error (.panic "index out of range [0] with length 0") ∧
    Proxy.WriteCommand md5.Sum ovfAmd64 exampleProxy (fun _ => backendLoneMinus)
        (GET (bytesOf "foo"))
      = .error (.panic "index out of range [0] with length 0") ∧
    ServeRound md5.Sum ovfAmd64 exampleProxy (fun _ => backendLoneMinus)
        (IOLoopTransaction (GET (bytesOf "foo")))
      = .error (.panic "index out of range [0] with length 0") ∧
    ServeRound md5.Sum ovfAmd64 exampleProxy (fun _ => backendBar)
        (IOLoopTransaction (GET (bytesOf "foo")))
      = .ok [.send { cmd := nilCommand, resp := some (.BulkString (some (bytesOf "bar"))),
                     Error := none }] :=
  ⟨rfl, rfl, rfl, rfl, rfl⟩

/-! ## Startup -/

theorem Stuck_init (p : Proxy) (addrs : List String) (i : Nat) (hi : i < addrs.length) :
    Stuck i (RunInit p addrs none) := by
  unfold RunInit Stuck
  rw [if_neg (by omega)]
  refine ⟨rfl, Or.inl ?_⟩
  simp [List.get?_eq_getElem?, hi]

theorem Stuck_step (ovf : Nat → Int) (addrs : List String) (backend : String → Backend)
    (hnopanic : ∀ addr err, Connect ovf (backend addr) = some err → err.isError = true)
    (i : Nat) (a : String) (e0 : Err) (ha : addrs.get? i = some a)
    (hfail : Connect ovf (backend a) = some e0) (s : RunState) (who : Nat)
    (hs : Stuck i s) : Stuck i (RunStep ovf addrs backend s who) := by
  obtain ⟨hphase, htask⟩ := hs
  unfold RunStep
  rw [hphase]
  simp only
  by_cases hwho : who < addrs.length
  · rw [if_pos hwho]
    cases ht : s.tasks.get? who with
    | none => exact ⟨hphase, htask⟩
    | some t =>
      cases t with
      | sending err => exact ⟨hphase, htask⟩
      | done => exact ⟨hphase, htask⟩
      | running =>
        cases hA : addrs.get? who with
        | none => exact ⟨hphase, htask⟩
        | some addr =>
          simp only
          have hset : ∀ x, who ≠ i → (s.tasks.set who x).get? i = s.tasks.get? i := by
            intro x hwi
            simp [List.get?_eq_getElem?, List.getElem?_set_ne hwi]
          have hlen : who < s.tasks.length := by
            rw [List.get?_eq_getElem?] at ht
            exact (List.getElem?_eq_some.mp ht).1
          cases hc : Connect ovf (backend addr) with
          | none =>
            have hwi : who ≠ i := by
              intro hwi
              subst hwi
              rw [ha] at hA
              have haddr : a = addr := Option.some.inj hA
              subst haddr
              rw [hfail] at hc
              cases hc
            unfold ConnectRedis
            rw [hc]
            exact ⟨rfl, by simpa only [hset _ hwi] using htask⟩
          | some err =>
            have he := hnopanic addr err hc
            unfold ConnectRedis
            rw [hc]
            simp only
            rw [if_pos he]
            simp only
            rw [if_pos (show (Err.error ("cluster node[" ++ addr ++ "] error: " ++ err.text)).isError
              = true from rfl)]
            by_cases hwi : who = i
            · subst hwi
              exact ⟨rfl, Or.inr ⟨.error ("cluster node[" ++ addr ++ "] error: " ++ err.text),
                by simp [List.get?_eq_getElem?, hlen]⟩⟩
            · exact ⟨rfl, by simpa only [hset _ hwi] using htask⟩
  · rw [if_neg hwho]
    have hnot : ¬ (s.tasks.all (fun t => decide (t = DialTask.done)) = true) := by
      intro hall
      rw [List.all_eq_true] at hall
      rcases htask with h | ⟨err, h⟩
      · have hm := List.get?_mem h
        have := hall _ hm
        simp at this
      · have hm := List.get?_mem h
        have := hall _ hm
        simp at this
    rw [if_neg hnot]
    exact ⟨hphase, htask⟩

/-- When the handshake of one configured backend fails with an error (and no
handshake panics), `Run` stays in `wg.Wait()` under every schedule: the
goroutine of that backend is blocked in its send on `errChan` and never
calls `Done`. -/
theorem run_stuck_of_failed_dial (ovf : Nat → Int) (p : Proxy) (addrs : List String)
    (backend : String → Backend)
    (hnopanic : ∀ addr err, Connect ovf (backend addr) = some err → err.isError = true)
    (i : Nat) (a : String) (e0 : Err)
    (ha : addrs.get? i = some a) (hfail : Connect ovf (backend a) = some e0) :
    ∀ schedule : List Nat, (RunUnder ovf p addrs none backend schedule).phase = .waiting := by
  have hi : i < addrs.length := by
    rw [List.get?_eq_getElem?] at ha
    exact (List.getElem?_eq_some.mp ha).1
  have key : ∀ (schedule : List Nat) (s : RunState), Stuck i s →
      Stuck i (schedule.foldl (RunStep ovf addrs backend) s) := by
    intro schedule
    induction schedule with
    | nil => intro s hs; exact hs
    | cons who rest ih =>
      intro s hs
      exact ih _ (Stuck_step ovf addrs backend hnopanic i a e0 ha hfail s who hs)
  intro schedule
  exact (key schedule _ (Stuck_init p addrs i hi)).1

/-- The two backends of the examples return an error or succeed: neither
handshake panics. -/
theorem backendsOneBad_no_panic (addr : String) (err : Err)
    (h : Connect ovfAmd64 (backendsOneBad addr) = some err) : err.isError = true := by
  have hB : Connect ovfAmd64 backendNotPong
      = some (.error "backend redis error: ping failure") := by decide
  have hA : Connect ovfAmd64 backendPong = none := by decide
  unfold backendsOneBad at h
  by_cases hb : addr = "B"
  · rw [if_pos hb, hB] at h
    cases h
    rfl
  · rw [if_neg hb, hA] at h
    cases h

/-- C16. With the backends `A`, answering PONG, and `B`, answering
`+NOTPONG\r\n`, the handshake of `B` fails with `backend redis error: ping
failure`, and under every schedule of the goroutines `Run` is still in
`wg.Wait()`: it never returns the error (and never serves). -/
theorem startup_failure_never_returns (schedule : List Nat) :
    Connect ovfAmd64 backendNotPong = some (.error "backend redis error: ping failure") ∧
    (RunUnder ovfAmd64 New ["A", "B"] none backendsOneBad schedule).phase = .waiting :=
  ⟨by decide,
   run_stuck_of_failed_dial ovfAmd64 New ["A", "B"] backendsOneBad backendsOneBad_no_panic 1 "B"
    (.error "backend redis error: ping failure") rfl (by decide) schedule⟩

/-- A handshake that panics ends the starting process: with the one backend
answering the PING with `$-\r\n`, the goroutine panics inside `ReadResponse`
and `Run` neither returns nor serves, whatever moves next. -/
theorem startup_panic_ends_process :
    ConnectRedis ovfAmd64 New "A" backendLoneMinus
      = (some (.panic "index out of range [0] with length 0"), New) ∧
    (RunUnder ovfAmd64 New ["A"] none (fun _ => backendLoneMinus) [0, 1, 0, 1]).phase
      = .crashed (.panic "index out of range [0] with length 0") :=
  ⟨rfl, rfl⟩

/-- C17. With the configured addresses `A`, `B` and both handshakes
succeeding, the schedule in which the goroutine of `B` finishes first ends
in the serving proxy with the name list `B, A`, and the one in which `A`
finishes first with `A, B`; a command without parameters is then routed to
`B` in the first case and to `A` in the second. -/
theorem startup_order_follows_completion :
    (RunUnder ovfAmd64 New ["A", "B"] none (fun _ => backendPong) [1, 0, 2, 2]).phase = .serving ∧
    (RunUnder ovfAmd64 New ["A", "B"] none (fun _ => backendPong) [1, 0, 2, 2]).proxy.clusterNames
      = ["B", "A"] ∧
    (RunUnder ovfAmd64 New ["A", "B"] none (fun _ => backendPong) [0, 1, 2, 2]).phase = .serving ∧
    (RunUnder ovfAmd64 New ["A", "B"] none (fun _ => backendPong) [0, 1, 2, 2]).proxy.clusterNames
      = ["A", "B"] ∧
    acquireSvcConn exampleDigest
      (RunUnder ovfAmd64 New ["A", "B"] none (fun _ => backendPong) [1, 0, 2, 2]).proxy PING
      = .ok (Conn.mk "B") ∧
    acquireSvcConn exampleDigest
      (RunUnder ovfAmd64 New ["A", "B"] none (fun _ => backendPong) [0, 1, 2, 2]).proxy PING
      = .ok (Conn.mk "A") := by
  decide

/-! ## Untrusted input -/

/-- `BytesToNumber` fails exactly on the byte strings made of `-` only (the
empty one included), and then by the panic of `numBytes[0]`. -/
theorem BytesToNumber_error_iff (ovf : Nat → Int) : ∀ data : List Nat,
    (∃ e, BytesToNumber ovf data = .error e) ↔ ∀ b ∈ data, b = 45 := by
  intro data
  induction data with
  | nil => simp [BytesToNumber]
  | cons b rest ih =>
    by_cases hb : b = 45
    · subst hb
      rw [BytesToNumber, if_pos rfl]
      cases h : BytesToNumber ovf rest with
      | ok n =>
        have hno : ¬ ∀ x ∈ rest, x = 45 := fun hall => by
          obtain ⟨e, he⟩ := ih.mpr hall
          rw [h] at he
          cases he
        simp [hno]
      | error e =>
        have hall : ∀ x ∈ rest, x = 45 := ih.mp ⟨e, h⟩
        simpa using hall
    · rw [BytesToNumber, if_neg hb]
      simp [hb]

set_option maxRecDepth 100000 in
unseal wrapInt in
/-- The request decoder has the same limit of `make`: a parameter announced
with the length `9223372036854775805` ends in its panic, and so does the
length `281474976710655`. -/
theorem request_length_above_limit :
    IOLoopReadCommand ovfAmd64 (bytesOf "*1\r\n$9223372036854775805\r\nab")
      = (.error (.panic "makeslice: len out of range"), bytesOf "ab") ∧
    IOLoopReadCommand ovfAmd64 (bytesOf "*1\r\n$281474976710655\r\nab")
      = (.error (.panic "makeslice: len out of range"), bytesOf "ab") ∧
    IOLoopReadCommand ovfAmd64 (bytesOf "*1\r\n$5\r\nab") = (.error .ErrUnexpectedEOF, []) :=
  ⟨rfl, rfl, rfl⟩

set_option maxRecDepth 100000 in
unseal wrapInt in
/-- C21. The decoders panic on length fields that are negative or a lone
`-`.  In the request decoder, `*1\r\n$-5\r\n` makes `parseCommandArg`
allocate a buffer of length `-3`, `*1\r\n$-1\r\n` followed by one more byte
makes it slice `arg[:-1]`, and the first line `*-` makes `BytesToNumber`
index the empty slice; in the response parser, `$-\r\n` and `*-\r\n` do the
same, and the bulk length `9223372036854775807` makes `toBulkString` allocate
a buffer of negative length. -/
theorem decoders_panic_on_bad_lengths :
    IOLoopReadCommand ovfAmd64 (bytesOf "*1\r\n$-5\r\n")
      = (.error (.panic "makeslice: len out of range"), []) ∧
    IOLoopReadCommand ovfAmd64 (bytesOf "*1\r\n$-1\r\nx")
      = (.error (.panic "slice bounds out of range"), []) ∧
    IOLoopReadCommand ovfAmd64 (bytesOf "*1\r\n$-1\r\n") = (.error .EOF, []) ∧
    IOLoopReadCommand ovfAmd64 (bytesOf "*-\r\n")
      = (.error (.panic "index out of range [0] with length 0"), []) ∧
    IOLoopReadCommand ovfAmd64 (bytesOf "*1\r\n$-\r\n")
      = (.error (.panic "index out of range [0] with length 0"), []) ∧
    (ReadResponse ovfAmd64 (bytesOf "$-\r\n")).1
      = .error (.panic "index out of range [0] with length 0") ∧
    (ReadResponse ovfAmd64 (bytesOf "*-\r\n")).1
      = .error (.panic "index out of range [0] with length 0") ∧
    (ReadResponse ovfAmd64 (bytesOf "*1\r\n$-\r\n")).1
      = .error (.panic "index out of range [0] with length 0") ∧
    (ReadResponse ovfAmd64 (bytesOf "$9223372036854775807\r\n")).1
      = .error (.panic "makeslice: len out of range") ∧
    (ReadResponse ovfAmd64 (bytesOf "$-5\r\n")).1
      = .error (.error "invalid bulk string length") :=
  ⟨rfl, rfl, rfl, rfl, rfl, rfl, rfl, rfl, rfl, rfl⟩

end RedisProxy
